import Mathlib

/-!
Verification of the active-recall study assistant backend.

The development below is a shallow embedding of the backend's core:
the hierarchical note-section store (`backend/routers/notes.py`), the
content aggregation and quiz/recall pipelines (`backend/routers/quiz.py`,
`backend/routers/recall.py`) and the response-handling part of the LLM
gateway (`backend/services/llm_service.py`).

Modelling conventions:
- Python strings are modelled as `List Char` (`Str`), so that `strip`,
  `upper`, `startswith` and friends are executable and kernel-reducible.
- Database rows live in a `List` in table (insertion) order; every SQL
  `ORDER BY` is modelled by the stable `List.insertionSort`.
- Timestamps are modelled by a logical clock (`Nat`) carried by the store
  and incremented on every row creation.
- The external LLM and `json.loads` are opaque: they enter as function
  parameters (`jsonLoads`) or as already-parsed values.
- Python exceptions surface as `Except`/`PyOutcome` values; an uncaught
  `IndexError` is the `unhandledIndexError` outcome.
-/

namespace StudyApp

/-! ## Python strings -/

/-- Python strings, modelled as lists of characters. -/
abbrev Str := List Char

/-- Turn a Lean string literal into a modelled Python string. -/
def str (s : String) : Str := s.data

/-- Characters removed by Python's `str.strip()` (ASCII whitespace). -/
def pyIsSpace (c : Char) : Bool :=
  c = ' ' || c = '\t' || c = '\n' || c = '\r' || c = Char.ofNat 11 || c = Char.ofNat 12

/-- Python `str.strip()`: drop leading and trailing whitespace. -/
def pyStrip (s : Str) : Str :=
  ((s.dropWhile pyIsSpace).reverse.dropWhile pyIsSpace).reverse

/-- Python `str.upper()` on the ASCII range. -/
def pyUpper (s : Str) : Str := s.map Char.toUpper

/-- Python `s.startswith(pre)`. -/
def pyStartsWith (s pre : Str) : Bool := pre.isPrefixOf s

/-! ## Data model: `backend/models.py` -/

/-- A row of the `note_sections` table (`models.NoteSection`). -/
structure NoteSection where
  id : Nat
  parent_id : Option Nat
  title : Str
  content : Str
  display_order : Int
  created_at : Nat
  updated_at : Nat
deriving Repr, DecidableEq

/-- A row of the `questions` table (`models.Question`). -/
structure Question where
  id : Nat
  section_id : Nat
  question_type : Str
  question_text : Str
  options : Option (List Str)
  correct_answer : Str
  explanation : Option Str
  created_at : Nat
deriving Repr, DecidableEq

/-- A row of the `recall_sessions` table (`models.RecallSession`).
The `analysis` JSON column holds the parsed LLM output. -/
structure RecallSession where
  id : Nat
  section_id : Nat
  user_recall : Str
  analysis_score : Option Int
  analysis_correct_points : List Str
  analysis_missed_points : List (Str × Str)
  analysis_inaccuracies : List (Str × Str × Str)
  analysis_suggestions : List Str
  analysis_summary : Option Str
  score : Int
  created_at : Nat
deriving Repr, DecidableEq

/-- The parsed form of the LLM's recall-analysis JSON (a Python dict in the
source; each field is `Option`al because `dict.get` tolerates absence). -/
structure Analysis where
  score : Option Int
  correct_points : List Str
  missed_points : List (Str × Str)
  inaccuracies : List (Str × Str × Str)
  suggestions : List Str
  summary : Option Str
deriving Repr, DecidableEq

/-- `ORDER BY display_order` comparison on section rows. -/
def dispLe (s t : NoteSection) : Prop := s.display_order ≤ t.display_order

instance : DecidableRel dispLe :=
  fun s t => inferInstanceAs (Decidable (s.display_order ≤ t.display_order))

instance : IsTotal NoteSection dispLe :=
  ⟨fun s t => Int.le_total s.display_order t.display_order⟩

instance : IsTrans NoteSection dispLe := ⟨fun _ _ _ h h' => le_trans h h'⟩

/-- The `children` relationship of `models.NoteSection`: all rows whose
`parent_id` is this section's id, ordered by `display_order`. -/
def childrenOf (rows : List NoteSection) (sid : Nat) : List NoteSection :=
  List.insertionSort dispLe (rows.filter (fun r => r.parent_id == some sid))

/-- An HTTP error raised by an endpoint (`fastapi.HTTPException`). -/
structure HttpError where
  status : Nat
  detail : Str
deriving Repr, DecidableEq

instance {ε α : Type} [DecidableEq ε] [DecidableEq α] : DecidableEq (Except ε α)
  | .ok x, .ok y =>
    if h : x = y then .isTrue (by rw [h]) else .isFalse (by simp [h])
  | .error e, .error f =>
    if h : e = f then .isTrue (by rw [h]) else .isFalse (by simp [h])
  | .ok _, .error _ => .isFalse (by simp)
  | .error _, .ok _ => .isFalse (by simp)

/-- Outcome of an endpoint that may also die with an uncaught Python
exception (used for `check_answer`, which indexes a string unguarded). -/
inductive PyOutcome (α : Type) where
  | ok (value : α)
  | httpError (e : HttpError)
  | unhandledIndexError
deriving Repr, DecidableEq

/-! ## Content aggregation: `collect_content_from_sections`
(identical copies live in `quiz.py` and `recall.py`) -/

/-- The block emitted for one section: `f"## {section.title}\n{section.content}"`. -/
def sectionBlock (s : NoteSection) : Str :=
  str "## " ++ s.title ++ ['\n'] ++ s.content

/-- `collect_content_from_sections`: append a header block for every section
with non-blank content, then join with a blank line. -/
def collect_content_from_sections (sections : List NoteSection) : Str :=
  let content_parts := sections.foldl
    (fun parts s => if (pyStrip s.content).isEmpty then parts else parts ++ [sectionBlock s]) []
  List.intercalate (str "\n\n") content_parts

/-! ## `get_section_with_children` and the resolution loop
(identical copies live in `quiz.py` and `recall.py`) -/

/-- `get_section_with_children`: the section plus (optionally) its direct
children; `[]` when the id does not resolve. -/
def get_section_with_children (rows : List NoteSection) (section_id : Nat)
    (include_subsections : Bool) : List NoteSection :=
  match rows.find? (fun s => s.id == section_id) with
  | none => []
  | some s => s :: (if include_subsections then childrenOf rows s.id else [])

/-- The aggregation loop shared by `generate_quiz` and `analyze_user_recall`:
resolve each requested id in order, dropping sections whose id was already
collected. -/
def resolveSections (rows : List NoteSection) (section_ids : List Nat)
    (include_subsections : Bool) : List NoteSection :=
  section_ids.foldl
    (fun all_sections sid =>
      (get_section_with_children rows sid include_subsections).foldl
        (fun acc sec =>
          if (acc.map (fun s => s.id)).contains sec.id then acc else acc ++ [sec])
        all_sections)
    []

/-! ## `check_answer` (`quiz.py`) -/

/-- The response body of `POST /api/quiz/check`. -/
structure CheckResponse where
  is_correct : Bool
  correct_answer : Str
  explanation : Option Str
  question_type : Str
deriving Repr, DecidableEq

/-- `check_answer`: for an mcq question, compare the trimmed, uppercased
answers by first character (`user.startswith(correct[0]) or
correct.startswith(user[0])`, with Python's evaluation order and
short-circuiting); the unguarded `[0]` indexing surfaces as
`unhandledIndexError` on an empty trimmed string. -/
def check_answer (questions : List Question) (question_id : Nat)
    (user_answer : Str) : PyOutcome CheckResponse :=
  match questions.find? (fun q => q.id == question_id) with
  | none => .httpError ⟨404, str "Question not found"⟩
  | some question =>
    if question.question_type == str "mcq" then
      let user_ans := pyUpper (pyStrip user_answer)
      let correct_ans := pyUpper (pyStrip question.correct_answer)
      match correct_ans.head? with
      | none => .unhandledIndexError
      | some c =>
        if pyStartsWith user_ans [c] then
          .ok ⟨true, question.correct_answer, question.explanation, question.question_type⟩
        else
          match user_ans.head? with
          | none => .unhandledIndexError
          | some u =>
            .ok ⟨pyStartsWith correct_ans [u], question.correct_answer,
                 question.explanation, question.question_type⟩
    else
      .ok ⟨false, question.correct_answer, question.explanation, question.question_type⟩

/-- A concrete mcq question with `correct_answer = "A"`, used by the
concrete scenarios of the spec. -/
def qA : Question :=
  ⟨1, 1, str "mcq", str "What is the capital of France?",
   some [str "A) Paris", str "B) London", str "C) Berlin", str "D) Rome"],
   str "A", none, 0⟩

/-- Section `A` with content `"x"` from the aggregator scenario. -/
def secA : NoteSection := ⟨1, none, str "A", str "x", 0, 0, 0⟩

/-- Section `B` with empty content from the aggregator scenario. -/
def secB : NoteSection := ⟨2, none, str "B", str "", 1, 1, 1⟩

/-! ## The section store and `update_section` (`notes.py`) -/

/-- The persistent state behind the notes endpoints: the `note_sections`
table in insertion order, the next auto-increment id, and a logical clock
standing in for `datetime.utcnow`. -/
structure Store where
  rows : List NoteSection
  nextId : Nat
  clock : Nat
deriving Repr, DecidableEq

/-- Request body of `PUT /api/notes/{id}` (`NoteSectionUpdate`): a JSON
`null` and an omitted field are both `none`, exactly as in the pydantic
model where both arrive as Python `None`. -/
structure NoteSectionUpdate where
  title : Option Str
  content : Option Str
  parent_id : Option Nat
  display_order : Option Int
deriving Repr, DecidableEq

/-- Commit a mutated row back to the table. -/
def saveSection (st : Store) (sec : NoteSection) : Store :=
  { st with rows := st.rows.map (fun r => if r.id == sec.id then sec else r),
            clock := st.clock + 1 }

/-- `update_section`: apply the provided fields; `parent_id` is validated
(self-parent, depth cap) and assigned only when the request carries a
non-null value, so a null/omitted `parent_id` leaves the parent untouched. -/
def update_section (st : Store) (section_id : Nat) (u : NoteSectionUpdate) :
    Except HttpError (Store × NoteSection) :=
  match st.rows.find? (fun s => s.id == section_id) with
  | none => .error ⟨404, str "Section not found"⟩
  | some db_section =>
    let db_section := match u.title with
      | some t => { db_section with title := t } | none => db_section
    let db_section := match u.content with
      | some c => { db_section with content := c } | none => db_section
    let db_section := match u.display_order with
      | some d => { db_section with display_order := d } | none => db_section
    match u.parent_id with
    | some pid =>
      if pid == section_id then
        .error ⟨400, str "Section cannot be its own parent"⟩
      else
        match st.rows.find? (fun s => s.id == pid) with
        | some parent =>
          if parent.parent_id ≠ none then
            .error ⟨400, str "Cannot move section under another subsection. Maximum 2 levels allowed."⟩
          else
            let sec := { db_section with parent_id := some pid, updated_at := st.clock }
            .ok (saveSection st sec, sec)
        | none =>
          -- `if parent and parent.parent_id is not None` is skipped for a
          -- missing parent, and the id is assigned anyway
          let sec := { db_section with parent_id := some pid, updated_at := st.clock }
          .ok (saveSection st sec, sec)
    | none =>
      let sec :=
        if u.title.isSome || u.content.isSome || u.display_order.isSome then
          { db_section with updated_at := st.clock }
        else db_section
      .ok (saveSection st sec, sec)

/-! ## `reorder_sections` (`notes.py`) -/

/-- The index at which Python's `list.insert(i, x)` actually inserts:
negative indices count from the end and out-of-range indices clamp. -/
def pyInsertIndex (len : Nat) (i : Int) : Nat :=
  if i < 0 then (i + len).toNat else min i.toNat len

/-- Python `list.insert(i, x)`. -/
def pyInsert (l : List NoteSection) (i : Int) (x : NoteSection) : List NoteSection :=
  List.insertIdx (pyInsertIndex l.length i) x l

/-- The renumbering loop
`for i, sibling in enumerate(siblings): sibling.display_order = i`. -/
def renumberSiblings (l : List NoteSection) : List NoteSection :=
  l.enum.map (fun p => { p.2 with display_order := (p.1 : Int) })

/-- `reorder_sections`: fetch the siblings ordered by `display_order`,
take out the target, reinsert it at `new_order`, then write back
`display_order := positional index` for every sibling. -/
def reorder_sections (st : Store) (section_id : Nat) (new_order : Int) :
    Except HttpError Store :=
  match st.rows.find? (fun s => s.id == section_id) with
  | none => .error ⟨404, str "Section not found"⟩
  | some db_section =>
    let siblings := List.insertionSort dispLe
      (st.rows.filter (fun s => s.parent_id == db_section.parent_id))
    let siblings := siblings.filter (fun s => s.id != section_id)
    let siblings := pyInsert siblings new_order db_section
    let renum := renumberSiblings siblings
    .ok { st with
      rows := st.rows.map (fun s =>
        match renum.find? (fun t => t.id == s.id) with
        | some t => t
        | none => s),
      clock := st.clock + 1 }

/-- A three-sibling store used to witness the reorder claim. -/
def reorderStore : Store :=
  ⟨[⟨1, none, str "s1", str "", 0, 0, 0⟩,
    ⟨2, none, str "s2", str "", 1, 1, 1⟩,
    ⟨3, none, str "s3", str "", 2, 2, 2⟩], 4, 3⟩

/-! ## LLM gateway response handling (`services/llm_service.py`) -/

/-- Python `needle in hay` substring test. -/
def pyIn (needle : Str) : Str → Bool
  | [] => needle.isPrefixOf []
  | c :: rest => needle.isPrefixOf (c :: rest) || pyIn needle rest

/-- Worker for Python `str.split(sep)`: scan left to right, cutting at each
non-overlapping occurrence of `sep`. An empty `sep` raises in Python and
never occurs here; this model returns the unsplit rest for it. -/
def pySplitAux (sep : Str) : Str → Str → List Str
  | [], cur => [cur.reverse]
  | c :: rest, cur =>
    if h : sep ≠ [] ∧ sep.isPrefixOf (c :: rest) = true then
      cur.reverse :: pySplitAux sep ((c :: rest).drop sep.length) []
    else
      pySplitAux sep rest (c :: cur)
termination_by l _ => l.length
decreasing_by
  · simp only [List.length_drop, List.length_cons]
    have : 0 < sep.length := List.length_pos.mpr h.1
    omega
  · simp

/-- Python `s.split(sep)`. -/
def pySplit (sep s : Str) : List Str := pySplitAux sep s []

/-- The markdown-fence stripping applied to every LLM response before
JSON parsing (`if "```json" in response: … elif "```" in response: …`).
The `[1]` indexings are reached only under the corresponding containment
test, which guarantees the split produced at least two chunks. -/
def extractJsonBlock (response : Str) : Str :=
  if pyIn (str "```json") response then
    (pySplit (str "```") ((pySplit (str "```json") response).getD 1 [])).getD 0 []
  else if pyIn (str "```") response then
    (pySplit (str "```") ((pySplit (str "```") response).getD 1 [])).getD 0 []
  else response

/-- The fixed fallback Analysis value returned when the LLM response fails
JSON parsing. -/
def fallbackAnalysis : Analysis :=
  ⟨some 0, [], [], [],
   [str "Unable to analyze recall. Please try again."],
   some (str "Analysis failed due to a processing error.")⟩

/-- `analyze_recall`'s response handling: strip an optional markdown fence,
parse JSON (`jsonLoads` stands for the opaque `json.loads`), and degrade to
the fixed fallback value on a parse failure. -/
def analyze_recall (jsonLoads : Str → Option Analysis) (response : Str) : Analysis :=
  match jsonLoads (pyStrip (extractJsonBlock response)) with
  | some analysis => analysis
  | none => fallbackAnalysis

/-! ## Recall submission (`recall.py`) and quiz generation (`quiz.py`) -/

/-- Request body of `POST /api/recall/analyze`. -/
structure RecallSubmission where
  section_ids : List Nat
  user_recall : Str
  include_subsections : Bool
deriving Repr, DecidableEq

/-- The `recall_sessions` table plus its id counter and clock. -/
structure RecallStore where
  sessions : List RecallSession
  nextId : Nat
  clock : Nat
deriving Repr, DecidableEq

/-- `analyze_user_recall`: validate, resolve the requested sections,
aggregate their content, and persist a `RecallSession` keyed to
`all_sections[0]` with the (already parsed) LLM analysis. -/
def analyze_user_recall (rows : List NoteSection) (rst : RecallStore)
    (submission : RecallSubmission) (analysis : Analysis) :
    Except HttpError (RecallStore × RecallSession) :=
  if submission.section_ids.isEmpty then
    .error ⟨400, str "At least one section must be selected"⟩
  else if (pyStrip submission.user_recall).isEmpty then
    .error ⟨400, str "No recall content provided"⟩
  else
    match resolveSections rows submission.section_ids submission.include_subsections with
    | [] => .error ⟨404, str "No sections found"⟩
    | primary_section :: rest =>
      let combined_content :=
        collect_content_from_sections (primary_section :: rest)
      if (pyStrip combined_content).isEmpty then
        .error ⟨400, str "Selected sections have no content"⟩
      else
        let session : RecallSession :=
          ⟨rst.nextId, primary_section.id, submission.user_recall,
           analysis.score, analysis.correct_points, analysis.missed_points,
           analysis.inaccuracies, analysis.suggestions, analysis.summary,
           analysis.score.getD 0, rst.clock⟩
        .ok (⟨rst.sessions ++ [session], rst.nextId + 1, rst.clock + 1⟩, session)

/-- Request body of `POST /api/quiz/generate`. -/
structure GenerateRequest where
  section_ids : List Nat
  num_questions : Nat
  question_type : Str
  custom_instructions : Str
  include_subsections : Bool
deriving Repr, DecidableEq

/-- One question dict returned by the LLM gateway; every field is read
with `dict.get`, hence `Option`al. -/
structure QuestionDraft where
  question_type : Option Str
  question_text : Option Str
  options : Option (List Str)
  correct_answer : Option Str
  explanation : Option Str
deriving Repr, DecidableEq

/-- The `questions` table plus its id counter and clock. -/
structure QuizStore where
  questions : List Question
  nextId : Nat
  clock : Nat
deriving Repr, DecidableEq

/-- `generate_quiz`: validate, resolve the requested sections, aggregate
content, then persist every draft returned by the gateway
(`questions_data` stands for the gateway's parsed response) under the
first requested section id. -/
def generate_quiz (rows : List NoteSection) (qst : QuizStore)
    (request : GenerateRequest) (questions_data : List QuestionDraft) :
    Except HttpError (QuizStore × List Question) :=
  if request.section_ids.isEmpty then
    .error ⟨400, str "At least one section must be selected"⟩
  else
    match resolveSections rows request.section_ids request.include_subsections with
    | [] => .error ⟨404, str "No sections found"⟩
    | s :: rest =>
      let combined_content := collect_content_from_sections (s :: rest)
      if (pyStrip combined_content).isEmpty then
        .error ⟨400, str "Selected sections have no content"⟩
      else if questions_data.isEmpty then
        .error ⟨500, str "Failed to generate questions"⟩
      else
        -- `request.section_ids[0]` is safe behind the emptiness guard
        let primary_section_id := request.section_ids.headD 0
        let saved := questions_data.foldl
          (fun (acc : QuizStore × List Question) d =>
            let q : Question :=
              ⟨acc.1.nextId, primary_section_id,
               d.question_type.getD (str "free_response"),
               d.question_text.getD (str ""),
               d.options,
               d.correct_answer.getD (str ""),
               d.explanation,
               acc.1.clock⟩
            (⟨acc.1.questions ++ [q], acc.1.nextId + 1, acc.1.clock + 1⟩,
             acc.2 ++ [q]))
          (qst, [])
        .ok saved

/-! ## Tree building, export and JSON document import (`notes.py`) -/

/-- The nested tree view returned by the section endpoints
(`build_section_tree`). -/
inductive TreeNode where
  | mk (id : Nat) (parent_id : Option Nat) (title : Str) (content : Str)
       (display_order : Int) (created_at : Nat) (updated_at : Nat)
       (children : List TreeNode)

/-- The `id` field of a tree node. -/
def TreeNode.id : TreeNode → Nat
  | .mk i _ _ _ _ _ _ _ => i

/-- The `parent_id` field of a tree node. -/
def TreeNode.parent_id : TreeNode → Option Nat
  | .mk _ p _ _ _ _ _ _ => p

/-- The `title` field of a tree node. -/
def TreeNode.title : TreeNode → Str
  | .mk _ _ t _ _ _ _ _ => t

/-- The `content` field of a tree node. -/
def TreeNode.content : TreeNode → Str
  | .mk _ _ _ c _ _ _ _ => c

/-- The `children` field of a tree node. -/
def TreeNode.children : TreeNode → List TreeNode
  | .mk _ _ _ _ _ _ _ ch => ch

/-- `build_section_tree`: recursively materialize a section and its
children. The source recurses on the (acyclic) parent graph; the embedding
carries fuel, and every caller passes the row count, which bounds the tree
height, so the fuelled recursion never truncates on an acyclic store. -/
def build_section_tree (rows : List NoteSection) : Nat → NoteSection → TreeNode
  | 0, s =>
    .mk s.id s.parent_id s.title s.content s.display_order s.created_at s.updated_at []
  | fuel + 1, s =>
    .mk s.id s.parent_id s.title s.content s.display_order s.created_at s.updated_at
      ((childrenOf rows s.id).map (build_section_tree rows fuel))

/-- SQL rank of a `parent_id` under `nullsfirst()` ordering: nulls first,
then parent ids ascending. -/
def parentRank : Option Nat → Nat
  | none => 0
  | some p => p + 1

/-- The `ORDER BY parent_id NULLS FIRST, display_order, updated_at DESC`
comparison used by `list_sections` with `flat=true`. -/
def flatLe (s t : NoteSection) : Prop :=
  parentRank s.parent_id < parentRank t.parent_id ∨
    (parentRank s.parent_id = parentRank t.parent_id ∧
      (s.display_order < t.display_order ∨
        (s.display_order = t.display_order ∧ t.updated_at ≤ s.updated_at)))

instance : DecidableRel flatLe := fun s t =>
  inferInstanceAs (Decidable
    (parentRank s.parent_id < parentRank t.parent_id ∨
      (parentRank s.parent_id = parentRank t.parent_id ∧
        (s.display_order < t.display_order ∨
          (s.display_order = t.display_order ∧ t.updated_at ≤ s.updated_at)))))

instance : IsTotal NoteSection flatLe :=
  ⟨fun s t => by unfold flatLe; omega⟩

instance : IsTrans NoteSection flatLe :=
  ⟨fun a b c h1 h2 => by unfold flatLe at h1 h2 ⊢; omega⟩

/-- `list_sections` with `flat=true`: every row, ordered by
(`parent_id` nulls first, `display_order`, `updated_at` desc), each rendered
through the tree builder. -/
def list_sections_flat (st : Store) : List TreeNode :=
  (List.insertionSort flatLe st.rows).map (build_section_tree st.rows st.rows.length)

/-- The top-level entries of a flat listing: the trees rooted at sections
with no parent. -/
def rootsOfFlat (ts : List TreeNode) : List TreeNode :=
  ts.filter (fun t => t.parent_id == none)

/-- The shape of a tree node visible to the isomorphism claim, two levels
deep: title, content, and the (title, content) of each child in order. -/
def treeTop (t : TreeNode) : Str × Str × List (Str × Str) :=
  (t.title, t.content, t.children.map (fun c => (c.title, c.content)))

/-- A node of the export document produced by `export_all_notes`
(`{title, content, display_order, created_at, updated_at, children}`). -/
inductive ExportNode where
  | mk (title : Str) (content : Str) (display_order : Int)
       (created_at : Nat) (updated_at : Nat) (children : List ExportNode)

/-- `export_section` (the worker inside `export_all_notes`), fuelled like
the tree builder. -/
def export_section_node (rows : List NoteSection) : Nat → NoteSection → ExportNode
  | 0, s => .mk s.title s.content s.display_order s.created_at s.updated_at []
  | fuel + 1, s =>
    .mk s.title s.content s.display_order s.created_at s.updated_at
      ((childrenOf rows s.id).map (export_section_node rows fuel))

/-- `export_all_notes`: every top-level section ordered by `display_order`,
recursively exported. -/
def export_all_notes (st : Store) : List ExportNode :=
  (List.insertionSort dispLe (st.rows.filter (fun s => s.parent_id == none))).map
    (export_section_node st.rows st.rows.length)

mutual
/-- The pydantic `ImportSection` model: recursive, so a document may carry
any nesting depth. (Mutual with its child list so that the recursion is
structural.) -/
inductive ImportSection where
  | mk (title : Str) (content : Str) (display_order : Int)
       (children : ImportSectionList)

/-- The `children` list of an `ImportSection`. -/
inductive ImportSectionList where
  | nil
  | cons (head : ImportSection) (tail : ImportSectionList)
end

/-- Build an `ImportSectionList` from a Lean list. -/
def ImportSectionList.ofList : List ImportSection → ImportSectionList
  | [] => .nil
  | c :: cs => .cons c (ImportSectionList.ofList cs)

/-- What pydantic keeps of an exported node: title, content and
display_order; the exported timestamps are not `ImportSection` fields and
are dropped. Fuelled like the export side. -/
def exportToImport : Nat → ExportNode → ImportSection
  | 0, .mk t c d _ _ _ => .mk t c d .nil
  | fuel + 1, .mk t c d _ _ ch =>
    .mk t c d (ImportSectionList.ofList (ch.map (exportToImport fuel)))

mutual
/-- `import_section` inside `import_notes`: create the row (flushing
assigns `nextId` as its id), then recursively create its children under
that id. No depth check is performed. -/
def import_section (st : Store) (sec : ImportSection) (pid : Option Nat) : Store :=
  match sec with
  | .mk t c d ch =>
    let st1 : Store :=
      ⟨st.rows ++ [⟨st.nextId, pid, t, c, d, st.clock, st.clock⟩],
       st.nextId + 1, st.clock + 1⟩
    import_children st1 (some st.nextId) ch

/-- The loop `for child in section_data.children: import_section(child, …)`. -/
def import_children (st : Store) (pid : Option Nat) : ImportSectionList → Store
  | .nil => st
  | .cons c cs => import_children (import_section st c pid) pid cs
end

/-- `import_notes`: create every top-level entry (and, recursively, its
children) in document order. -/
def import_notes (st : Store) (sections : ImportSectionList) : Store :=
  import_children st none sections

/-- The `export` endpoint followed by the `import` endpoint on an empty
store (fresh id counter `n0`, clock `c0`). -/
def exportImportRoundtrip (st : Store) (n0 c0 : Nat) : Store :=
  import_notes ⟨[], n0, c0⟩
    (ImportSectionList.ofList
      ((export_all_notes st).map (exportToImport st.rows.length)))

/-- The documented depth invariant of the data model: no section's parent
is itself a subsection (no grandchildren). -/
def depthInvariant (rows : List NoteSection) : Prop :=
  ∀ r ∈ rows, ∀ q ∈ rows, r.parent_id = some q.id → q.parent_id = none

instance (rows : List NoteSection) : Decidable (depthInvariant rows) :=
  inferInstanceAs (Decidable (∀ r ∈ rows, ∀ q ∈ rows, _ → _))

/-- The documented ordering invariant of the data model, restricted to what
the round-trip needs: distinct top-level sections carry distinct
`display_order` values. -/
def rootOrdersDistinct (rows : List NoteSection) : Prop :=
  ∀ r ∈ rows, ∀ q ∈ rows, r ≠ q → r.parent_id = none → q.parent_id = none →
    r.display_order ≠ q.display_order

instance (rows : List NoteSection) : Decidable (rootOrdersDistinct rows) :=
  inferInstanceAs (Decidable (∀ r ∈ rows, ∀ q ∈ rows, _ → _ → _ → _))

/-- A two-row store (one section with one subsection) witnessing the
round-trip claim. -/
def rtStore : Store :=
  ⟨[⟨1, none, str "T", str "body", 0, 0, 0⟩,
    ⟨2, some 1, str "U", str "more", 0, 1, 1⟩], 3, 2⟩

/-- A reachable store with two top-level sections sharing `display_order`
(create A, create B, `update(B, display_order := 0)`, then touch A so its
`updated_at` is freshest). -/
def tieStore : Store :=
  ⟨[⟨1, none, str "A", str "", 0, 0, 5⟩,
    ⟨2, none, str "B", str "", 0, 1, 1⟩], 3, 6⟩

/-- A 3-level document: the import format is recursive, so this is a legal
request body. -/
def threeLevelDoc : ImportSectionList :=
  .cons (.mk (str "a") (str "") 0
    (.cons (.mk (str "b") (str "") 0
      (.cons (.mk (str "c") (str "") 0 .nil) .nil)) .nil)) .nil

/-! Proof-side canonical forms for the round-trip argument. -/

/-- The two-level shape of a store visible to the isomorphism claim:
sorted top-level sections, each with title, content and its children's
(title, content) pairs. -/
def canonical2 (rows : List NoteSection) : List (Str × Str × List (Str × Str)) :=
  (List.insertionSort dispLe (rows.filter (fun s => s.parent_id == none))).map
    (fun r => (r.title, r.content,
      (childrenOf rows r.id).map (fun c => (c.title, c.content))))

/-- The document `import_notes` receives from a round trip: one entry per
sorted top-level section, with its children as leaf entries. -/
def rootDoc (rows : List NoteSection) (rs : List NoteSection) : ImportSectionList :=
  ImportSectionList.ofList (rs.map (fun r =>
    ImportSection.mk r.title r.content r.display_order
      (ImportSectionList.ofList ((childrenOf rows r.id).map (fun c =>
        ImportSection.mk c.title c.content c.display_order .nil)))))

/-- The rows created when a list of leaf entries is imported under `pid`,
starting from id `nid` and clock `clk`. -/
def importedLeafRows (pid : Option Nat) : Nat → Nat → List NoteSection → List NoteSection
  | _, _, [] => []
  | nid, clk, c :: cs =>
    ⟨nid, pid, c.title, c.content, c.display_order, clk, clk⟩
      :: importedLeafRows pid (nid + 1) (clk + 1) cs

/-- The rows created when the round-trip document for top-level sections
`rs` (children looked up in `rows`) is imported. -/
def importedRootRows (rows : List NoteSection) : Nat → Nat → List NoteSection → List NoteSection
  | _, _, [] => []
  | nid, clk, r :: rs =>
    ⟨nid, none, r.title, r.content, r.display_order, clk, clk⟩
      :: (importedLeafRows (some nid) (nid + 1) (clk + 1) (childrenOf rows r.id)
          ++ importedRootRows rows (nid + 1 + (childrenOf rows r.id).length)
              (clk + 1 + (childrenOf rows r.id).length) rs)

/-- Only the top-level rows of `importedRootRows`. -/
def importedRootsOnly (rows : List NoteSection) : Nat → Nat → List NoteSection → List NoteSection
  | _, _, [] => []
  | nid, clk, r :: rs =>
    ⟨nid, none, r.title, r.content, r.display_order, clk, clk⟩
      :: importedRootsOnly rows (nid + 1 + (childrenOf rows r.id).length)
          (clk + 1 + (childrenOf rows r.id).length) rs

/-- Total number of rows the round-trip document for `rs` creates. -/
def totalSize (rows : List NoteSection) : List NoteSection → Nat
  | [] => 0
  | r :: rs => 1 + (childrenOf rows r.id).length + totalSize rows rs

/-- A one-section store used by the recall-pipeline scenarios. -/
def oneSectionRows : List NoteSection := [⟨1, none, str "A", str "x", 0, 0, 0⟩]

/-- The session persisted by the concrete recall scenarios against
`oneSectionRows` with the fallback analysis. -/
def fallbackSession : RecallSession :=
  ⟨1, 1, str "I remember", some 0, [], [], [],
   [str "Unable to analyze recall. Please try again."],
   some (str "Analysis failed due to a processing error."), 0, 0⟩

end StudyApp

namespace StudyApp

/-! ## Theorems -/

/-- The aggregation fold appends exactly the blocks of the
non-blank-content sections, in order. -/
theorem collect_fold_eq (sections : List NoteSection) (acc : List Str) :
    sections.foldl
      (fun parts s => if (pyStrip s.content).isEmpty then parts else parts ++ [sectionBlock s]) acc
    = acc ++ (sections.filter (fun s => !(pyStrip s.content).isEmpty)).map sectionBlock := by
  induction sections generalizing acc with
  | nil => simp
  | cons s rest ih =>
    rw [List.foldl_cons, ih, List.filter_cons]
    by_cases h : pyStrip s.content = [] <;>
      simp [h, List.isEmpty_iff]

/-- Claim C7: `collect_content_from_sections` emits `## {title}\n{content}`
for exactly the sections with non-blank content, in resolved order, joined
by a blank line; in particular on sections A (content `"x"`) and B (content
`""`), resolved with `include_subsections=false`, it yields `"## A\nx"`. -/
theorem collect_content_spec :
    (∀ sections : List NoteSection,
      collect_content_from_sections sections =
        List.intercalate (str "\n\n")
          ((sections.filter (fun s => !(pyStrip s.content).isEmpty)).map sectionBlock))
    ∧ collect_content_from_sections (resolveSections [secA, secB] [1, 2] false) = str "## A\nx" := by
  constructor
  · intro sections
    simp only [collect_content_from_sections, collect_fold_eq, List.nil_append]
  · decide

/-- Claim C8: for an existing mcq question, `check_answer` reports
`is_correct = true` if and only if, after trimming and uppercasing both
strings, either string starts with the first character of the other; and
on the concrete question with `correct_answer = "A"`, the answers `"a"` and
`"A) Paris"` are accepted while `"B"` is rejected. -/
theorem check_answer_mcq_spec :
    (∀ (questions : List Question) (question_id : Nat) (user_answer : Str) (q : Question),
      questions.find? (fun x => x.id == question_id) = some q →
      q.question_type = str "mcq" →
      pyStrip user_answer ≠ [] →
      pyStrip q.correct_answer ≠ [] →
      ∃ res : CheckResponse,
        check_answer questions question_id user_answer = .ok res ∧
        (res.is_correct = true ↔
          (∃ c, (pyUpper (pyStrip q.correct_answer)).head? = some c ∧
            pyStartsWith (pyUpper (pyStrip user_answer)) [c] = true) ∨
          (∃ u, (pyUpper (pyStrip user_answer)).head? = some u ∧
            pyStartsWith (pyUpper (pyStrip q.correct_answer)) [u] = true)))
    ∧ check_answer [qA] 1 (str "a")
        = .ok ⟨true, str "A", none, str "mcq"⟩
    ∧ check_answer [qA] 1 (str "A) Paris")
        = .ok ⟨true, str "A", none, str "mcq"⟩
    ∧ check_answer [qA] 1 (str "B")
        = .ok ⟨false, str "A", none, str "mcq"⟩ := by
  refine ⟨?_, by decide, by decide, by decide⟩
  intro questions question_id user_answer q hfind htype huser hcorr
  have hcorr' : pyUpper (pyStrip q.correct_answer) ≠ [] := by
    simpa [pyUpper] using hcorr
  have huser' : pyUpper (pyStrip user_answer) ≠ [] := by
    simpa [pyUpper] using huser
  obtain ⟨c, cs, hc⟩ := List.exists_cons_of_ne_nil hcorr'
  obtain ⟨u, us, hu⟩ := List.exists_cons_of_ne_nil huser'
  rw [check_answer, hfind]
  simp only [htype, beq_self_eq_true, if_true]
  rw [hc, hu]
  simp only [List.head?_cons]
  by_cases h1 : pyStartsWith (u :: us) [c] = true
  · refine ⟨_, by rw [if_pos h1], ?_⟩
    constructor
    · intro _
      exact Or.inl ⟨c, rfl, h1⟩
    · intro _; rfl
  · rw [if_neg h1]
    refine ⟨_, rfl, ?_⟩
    constructor
    · intro hres
      exact Or.inr ⟨u, rfl, hres⟩
    · rintro (⟨c', hc', hsw⟩ | ⟨u', hu', hsw⟩)
      · rw [Option.some.injEq] at hc'
        rw [← hc'] at hsw
        exact absurd hsw h1
      · rw [Option.some.injEq] at hu'
        rw [← hu'] at hsw
        exact hsw

/-- Claim C9: for an existing mcq question, `check_answer` only returns a
normal response when both the trimmed user answer and the trimmed stored
correct answer are non-empty; if either trims to the empty string the
unguarded `[0]` indexing raises an uncaught IndexError instead of
reporting `is_correct = false`. -/
theorem check_answer_mcq_empty_unhandled :
    ∀ (questions : List Question) (question_id : Nat) (user_answer : Str) (q : Question),
      questions.find? (fun x => x.id == question_id) = some q →
      q.question_type = str "mcq" →
      ((pyStrip user_answer = [] ∨ pyStrip q.correct_answer = []) →
        check_answer questions question_id user_answer = .unhandledIndexError)
      ∧ (pyStrip user_answer ≠ [] → pyStrip q.correct_answer ≠ [] →
          ∃ res, check_answer questions question_id user_answer = .ok res) := by
  intro questions question_id user_answer q hfind htype
  constructor
  · intro hemp
    rw [check_answer, hfind]
    simp only [htype, beq_self_eq_true, if_true]
    rcases hemp with hu | hc
    · rw [hu]
      rcases h : (pyUpper (pyStrip q.correct_answer)).head? with _ | c <;>
        simp [h, pyUpper, pyStartsWith, List.isPrefixOf]
    · rw [hc]
      simp [pyUpper]
  · intro hu hc
    have hcorr' : pyUpper (pyStrip q.correct_answer) ≠ [] := by
      simpa [pyUpper] using hc
    have huser' : pyUpper (pyStrip user_answer) ≠ [] := by
      simpa [pyUpper] using hu
    obtain ⟨c, cs, hcc⟩ := List.exists_cons_of_ne_nil hcorr'
    obtain ⟨u, us, huu⟩ := List.exists_cons_of_ne_nil huser'
    rw [check_answer, hfind]
    simp only [htype, beq_self_eq_true, if_true]
    rw [hcc, huu]
    simp only [List.head?_cons]
    by_cases h1 : pyStartsWith (u :: us) [c] = true
    · exact ⟨_, by rw [if_pos h1]⟩
    · exact ⟨_, by rw [if_neg h1]⟩

/-- Witness for C8: the iff instantiated on the concrete question with
`correct_answer = "A"` and user answer `"a"`. -/
theorem check_answer_mcq_spec_witness :
    ∃ res : CheckResponse,
      check_answer [qA] 1 (str "a") = .ok res ∧
      (res.is_correct = true ↔
        (∃ c, (pyUpper (pyStrip qA.correct_answer)).head? = some c ∧
          pyStartsWith (pyUpper (pyStrip (str "a"))) [c] = true) ∨
        (∃ u, (pyUpper (pyStrip (str "a"))).head? = some u ∧
          pyStartsWith (pyUpper (pyStrip qA.correct_answer)) [u] = true)) :=
  check_answer_mcq_spec.1 [qA] 1 (str "a") qA (by decide) (by decide)
    (by decide) (by decide)

/-- Witness for C9: a whitespace-only user answer makes `check_answer`
raise the uncaught IndexError. -/
theorem check_answer_mcq_empty_unhandled_witness :
    check_answer [qA] 1 (str "   ") = .unhandledIndexError :=
  (check_answer_mcq_empty_unhandled [qA] 1 (str "   ") qA (by decide)
    (by decide)).1 (Or.inl (by decide))

/-- Claim C10: `update_section` never changes a section's `parent_id` from
non-null to null: a request whose `parent_id` is null/omitted leaves the
parent unchanged while the other requested fields still apply, and no
successful update can turn a subsection into a top-level section. -/
theorem update_section_parent_frame :
    ∀ (st : Store) (section_id : Nat) (u : NoteSectionUpdate) (sec0 : NoteSection),
      st.rows.find? (fun s => s.id == section_id) = some sec0 →
      (u.parent_id = none →
        ∃ st' sec', update_section st section_id u = .ok (st', sec') ∧
          sec'.parent_id = sec0.parent_id ∧
          sec'.title = u.title.getD sec0.title ∧
          sec'.content = u.content.getD sec0.content ∧
          sec'.display_order = u.display_order.getD sec0.display_order)
      ∧ (∀ st' sec', update_section st section_id u = .ok (st', sec') →
          sec0.parent_id ≠ none → sec'.parent_id ≠ none) := by
  intro st section_id u sec0 hfind
  constructor
  · intro hnone
    rw [update_section, hfind, hnone]
    refine ⟨_, _, rfl, ?_⟩
    rcases u with ⟨t, c, p, d⟩
    cases t <;> cases c <;> cases d <;>
      simp [Option.getD]
  · intro st' sec' hok hnn
    rw [update_section, hfind] at hok
    rcases u with ⟨t, c, p, d⟩
    rcases p with _ | pid <;> simp only at hok
    · simp only [Except.ok.injEq, Prod.mk.injEq] at hok
      obtain ⟨-, hsec⟩ := hok
      subst hsec
      cases t <;> cases c <;> cases d <;> simpa using hnn
    · by_cases hself : (pid == section_id) = true
      · rw [if_pos hself] at hok
        exact Except.noConfusion hok
      · rw [if_neg hself] at hok
        rcases hpar : st.rows.find? (fun s => s.id == pid) with _ | parent <;>
          rw [hpar] at hok <;> simp only at hok
        · simp only [Except.ok.injEq, Prod.mk.injEq] at hok
          obtain ⟨-, hsec⟩ := hok
          rw [← hsec]
          simp
        · by_cases hgp : parent.parent_id ≠ none
          · rw [if_pos hgp] at hok
            exact Except.noConfusion hok
          · rw [if_neg hgp] at hok
            simp only [Except.ok.injEq, Prod.mk.injEq] at hok
            obtain ⟨-, hsec⟩ := hok
            rw [← hsec]
            simp

/-- Renumbering from index `k` assigns `k, k+1, …` as display orders. -/
theorem renumber_enumFrom_display (k : Nat) (l : List NoteSection) :
    ((List.enumFrom k l).map (fun p => { p.2 with display_order := (p.1 : Int) })).map
        (fun s => s.display_order)
      = (List.range' k l.length).map (fun i => (i : Int)) := by
  induction l generalizing k with
  | nil => simp
  | cons a as ih => simp [List.enumFrom_cons, List.range'_succ, ih]

/-- The renumbering loop assigns exactly `0, 1, …, n-1`. -/
theorem renumber_map_display (l : List NoteSection) :
    (renumberSiblings l).map (fun s => s.display_order)
      = (List.range l.length).map (fun i => (i : Int)) := by
  rw [renumberSiblings, List.enum_eq_enumFrom, renumber_enumFrom_display,
    List.range_eq_range']

/-- Renumbering keeps every sibling's id (enumeration-offset form). -/
theorem renumber_enumFrom_id (k : Nat) (l : List NoteSection) :
    ((List.enumFrom k l).map (fun p => { p.2 with display_order := (p.1 : Int) })).map
        (fun s => s.id) = l.map (fun s => s.id) := by
  induction l generalizing k with
  | nil => simp
  | cons a as ih => simp [List.enumFrom_cons, ih]

/-- Renumbering keeps every sibling's id. -/
theorem renumber_map_id (l : List NoteSection) :
    (renumberSiblings l).map (fun s => s.id) = l.map (fun s => s.id) := by
  rw [renumberSiblings, List.enum_eq_enumFrom]
  exact renumber_enumFrom_id 0 l

/-- Renumbering keeps every sibling's parent reference
(enumeration-offset form). -/
theorem renumber_enumFrom_parent (k : Nat) (l : List NoteSection) :
    ((List.enumFrom k l).map (fun p => { p.2 with display_order := (p.1 : Int) })).map
        (fun s => s.parent_id) = l.map (fun s => s.parent_id) := by
  induction l generalizing k with
  | nil => simp
  | cons a as ih => simp [List.enumFrom_cons, ih]

/-- Renumbering keeps every sibling's parent reference. -/
theorem renumber_map_parent (l : List NoteSection) :
    (renumberSiblings l).map (fun s => s.parent_id) = l.map (fun s => s.parent_id) := by
  rw [renumberSiblings, List.enum_eq_enumFrom]
  exact renumber_enumFrom_parent 0 l

/-- Python's insertion index never exceeds the list length. -/
theorem pyInsertIndex_le (len : Nat) (i : Int) : pyInsertIndex len i ≤ len := by
  rw [pyInsertIndex]; split <;> omega

/-- `list.insert` produces a permutation of consing the element. -/
theorem pyInsert_perm (l : List NoteSection) (i : Int) (x : NoteSection) :
    (pyInsert l i x).Perm (x :: l) :=
  List.perm_insertIdx x l (pyInsertIndex_le l.length i)

/-- Removing one element by its id from an id-unique list is a
permutation inverse of consing it. -/
theorem perm_cons_filter_ne_id {l : List NoteSection}
    (hn : (l.map (fun s => s.id)).Nodup) {sec : NoteSection} (hmem : sec ∈ l) :
    l.Perm (sec :: l.filter (fun s => s.id != sec.id)) := by
  induction l with
  | nil => cases hmem
  | cons a rest ih =>
    rw [List.map_cons, List.nodup_cons] at hn
    obtain ⟨ha, hrest⟩ := hn
    rcases List.mem_cons.mp hmem with rfl | hm
    · have hall : rest.filter (fun s => s.id != sec.id) = rest := by
        rw [List.filter_eq_self]
        intro s hs
        have hne : s.id ≠ sec.id := by
          intro h
          refine ha ?_
          rw [← h]
          exact List.mem_map_of_mem (fun s => s.id) hs
        simpa using hne
      have hfc : (sec :: rest).filter (fun s => s.id != sec.id) = rest := by
        rw [List.filter_cons]
        simp [hall]
      rw [hfc]
    · have hane : (a.id != sec.id) = true := by
        have hne : a.id ≠ sec.id := by
          intro h
          refine ha ?_
          rw [h]
          exact List.mem_map_of_mem (fun s => s.id) hm
        simpa using hne
      rw [List.filter_cons, if_pos hane]
      exact ((ih hrest hm).cons a).trans (List.Perm.swap sec a _)

/-- Claim C1: after any `reorder(id, new_index)` on an existing section —
whatever create/delete history produced the current sibling set — the
`display_order` values across that section's sibling set are exactly
`0..n-1`: a full positional renumbering, with no gaps or duplicates. -/
theorem reorder_renumbers_siblings :
    ∀ (st : Store) (section_id : Nat) (new_order : Int) (sec : NoteSection) (st' : Store),
      (st.rows.map (fun s => s.id)).Nodup →
      st.rows.find? (fun s => s.id == section_id) = some sec →
      reorder_sections st section_id new_order = .ok st' →
      ((st'.rows.filter (fun s => s.parent_id == sec.parent_id)).map
          (fun s => s.display_order)).Perm
        ((List.range
            (st.rows.filter (fun s => s.parent_id == sec.parent_id)).length).map
          (fun i => (i : Int))) := by
  intro st section_id new_order sec st' hnodup hfind hok
  have hsecid : sec.id = section_id := by
    have := List.find?_some hfind
    simpa using this
  subst hsecid
  have hsecmem : sec ∈ st.rows := List.mem_of_find?_eq_some hfind
  rw [reorder_sections, hfind] at hok
  simp only [Except.ok.injEq] at hok
  subst hok
  set S := st.rows.filter (fun s => s.parent_id == sec.parent_id) with hS
  set sorted := List.insertionSort dispLe S with hsorted
  set removed := sorted.filter (fun s => s.id != sec.id) with hremoved
  set inserted := pyInsert removed new_order sec with hinserted
  set renum := renumberSiblings inserted with hrenum
  have hSmem : sec ∈ S := by
    rw [hS, List.mem_filter]
    exact ⟨hsecmem, by simp⟩
  have hSnodup : (S.map (fun s => s.id)).Nodup := by
    refine List.Nodup.sublist ?_ hnodup
    exact List.Sublist.map _ (List.filter_sublist _)
  have hsorted_perm : sorted.Perm S := List.perm_insertionSort _ _
  have hins_perm : inserted.Perm S := by
    refine (pyInsert_perm removed new_order sec).trans ?_
    refine ((hsorted_perm.filter (fun s => s.id != sec.id)).cons sec).trans ?_
    exact (perm_cons_filter_ne_id hSnodup hSmem).symm
  have hins_ids : (inserted.map (fun s => s.id)).Perm (S.map (fun s => s.id)) :=
    hins_perm.map _
  have hins_nodup : (inserted.map (fun s => s.id)).Nodup :=
    hins_ids.nodup_iff.mpr hSnodup
  have hrenum_ids : renum.map (fun s => s.id) = inserted.map (fun s => s.id) :=
    renumber_map_id inserted
  have hrenum_idnodup : (renum.map (fun s => s.id)).Nodup := by
    rw [hrenum_ids]; exact hins_nodup
  have hrenum_nodup : renum.Nodup := List.Nodup.of_map _ hrenum_idnodup
  have hins_parent : ∀ x ∈ inserted, x.parent_id = sec.parent_id := by
    intro x hx
    have hxS : x ∈ S := hins_perm.mem_iff.mp hx
    rw [hS, List.mem_filter] at hxS
    simpa using hxS.2
  have hrenum_parent : ∀ t ∈ renum, t.parent_id = sec.parent_id := by
    intro t ht
    have : t.parent_id ∈ renum.map (fun s => s.parent_id) :=
      List.mem_map_of_mem _ ht
    rw [renumber_map_parent] at this
    obtain ⟨x, hx, hxe⟩ := List.mem_map.mp this
    rw [← hxe]
    exact hins_parent x hx
  -- the write-back function applied to every row
  set φ : NoteSection → NoteSection := fun s =>
    match renum.find? (fun t => t.id == s.id) with
    | some t => t
    | none => s with hφ
  have hφ_found : ∀ s ∈ S, φ s ∈ renum ∧ (φ s).id = s.id := by
    intro s hs
    have hid : s.id ∈ renum.map (fun t => t.id) := by
      rw [hrenum_ids]
      exact (hins_ids.mem_iff).mpr (List.mem_map_of_mem _ hs)
    obtain ⟨t0, ht0, ht0e⟩ := List.mem_map.mp hid
    have hsome : (renum.find? (fun t => t.id == s.id)).isSome :=
      List.find?_isSome.mpr ⟨t0, ht0, by simp [ht0e]⟩
    rcases hf : renum.find? (fun t => t.id == s.id) with _ | t
    · rw [hf] at hsome; cases hsome
    · have hmem := List.mem_of_find?_eq_some hf
      have hide : t.id = s.id := by simpa using List.find?_some hf
      constructor
      · simp only [hφ, hf]
        exact hmem
      · simp only [hφ, hf]
        exact hide
  have hSrows : ∀ s ∈ st.rows, s.id ∈ inserted.map (fun t => t.id) → s ∈ S := by
    intro s hs hid
    rw [hins_ids.mem_iff] at hid
    obtain ⟨x, hx, hxe⟩ := List.mem_map.mp hid
    have hxrows : x ∈ st.rows := by
      rw [hS, List.mem_filter] at hx; exact hx.1
    have : x = s := List.inj_on_of_nodup_map hnodup hxrows hs hxe
    rw [← this]; exact hx
  have hfilter_congr : ∀ s ∈ st.rows,
      ((φ s).parent_id == sec.parent_id) = (s.parent_id == sec.parent_id) := by
    intro s hs
    rcases hf : renum.find? (fun t => t.id == s.id) with _ | t
    · simp only [hφ, hf]
    · have hmem := List.mem_of_find?_eq_some hf
      have hide : t.id = s.id := by simpa using List.find?_some hf
      have hsS : s ∈ S := by
        refine hSrows s hs ?_
        rw [← hrenum_ids]
        rw [← hide]
        exact List.mem_map_of_mem _ hmem
      have hsp : s.parent_id = sec.parent_id := by
        rw [hS, List.mem_filter] at hsS
        simpa using hsS.2
      have htp : t.parent_id = sec.parent_id := hrenum_parent t hmem
      simp only [hφ, hf]
      simp [htp, hsp]
  have hstep : (st.rows.map φ).filter (fun s => s.parent_id == sec.parent_id)
      = S.map φ := by
    rw [List.filter_map, hS]
    refine congrArg (List.map φ) ?_
    exact List.filter_congr hfilter_congr
  have hφS_perm : (S.map φ).Perm renum := by
    have hmapid : (S.map φ).map (fun s => s.id) = S.map (fun s => s.id) := by
      rw [List.map_map]
      exact List.map_congr_left (fun s hs => (hφ_found s hs).2)
    have hφS_nodup : (S.map φ).Nodup := by
      refine List.Nodup.of_map (fun s => s.id) ?_
      rw [hmapid]; exact hSnodup
    refine List.perm_of_nodup_nodup_toFinset_eq hφS_nodup hrenum_nodup ?_
    apply Finset.ext
    intro a
    simp only [List.mem_toFinset]
    constructor
    · intro hmem
      obtain ⟨s, hs, rfl⟩ := List.mem_map.mp hmem
      exact (hφ_found s hs).1
    · intro hmem
      have hid : a.id ∈ inserted.map (fun t => t.id) := by
        rw [← hrenum_ids]
        exact List.mem_map_of_mem _ hmem
      rw [hins_ids.mem_iff] at hid
      obtain ⟨s, hsS, hse⟩ := List.mem_map.mp hid
      obtain ⟨hin, hideq⟩ := hφ_found s hsS
      have : φ s = a := by
        refine List.inj_on_of_nodup_map hrenum_idnodup hin hmem ?_
        rw [hideq, hse]
      rw [← this]
      exact List.mem_map_of_mem φ hsS
  show (((st.rows.map φ).filter (fun s => s.parent_id == sec.parent_id)).map
      (fun s => s.display_order)).Perm
    ((List.range S.length).map (fun i => (i : Int)))
  rw [hstep]
  refine (hφS_perm.map (fun s => s.display_order)).trans ?_
  have hlen : inserted.length = S.length := hins_perm.length_eq
  rw [hrenum, renumber_map_display, hlen]

/-- Witness for C1: moving the third of three siblings to the front leaves
display orders `{0,1,2}`. -/
theorem reorder_renumbers_siblings_witness :
    reorder_sections reorderStore 3 0 = .ok
      ⟨[⟨1, none, str "s1", str "", 1, 0, 0⟩,
        ⟨2, none, str "s2", str "", 2, 1, 1⟩,
        ⟨3, none, str "s3", str "", 0, 2, 2⟩], 4, 4⟩ ∧
    ((((⟨[⟨1, none, str "s1", str "", 1, 0, 0⟩,
          ⟨2, none, str "s2", str "", 2, 1, 1⟩,
          ⟨3, none, str "s3", str "", 0, 2, 2⟩], 4, 4⟩ : Store)).rows.filter
        (fun s => s.parent_id == (none : Option Nat))).map
      (fun s => s.display_order)).Perm
      ((List.range
          (reorderStore.rows.filter (fun s => s.parent_id == (none : Option Nat))).length).map
        (fun i => (i : Int))) :=
  ⟨by decide,
    reorder_renumbers_siblings reorderStore 3 0 ⟨3, none, str "s3", str "", 2, 2, 2⟩
      ⟨[⟨1, none, str "s1", str "", 1, 0, 0⟩,
        ⟨2, none, str "s2", str "", 2, 1, 1⟩,
        ⟨3, none, str "s3", str "", 0, 2, 2⟩], 4, 4⟩
      (by decide) (by decide) (by decide)⟩

/-- Witness for C10: updating a subsection's title with a null `parent_id`
leaves it under its parent. -/
theorem update_section_parent_frame_witness :
    ∃ st' sec',
      update_section ⟨[⟨1, none, str "P", str "", 0, 0, 0⟩,
                       ⟨2, some 1, str "C", str "c", 0, 0, 0⟩], 3, 2⟩ 2
        ⟨some (str "T"), none, none, some 5⟩ = .ok (st', sec') ∧
      sec'.parent_id = (⟨2, some 1, str "C", str "c", 0, 0, 0⟩ : NoteSection).parent_id ∧
      sec'.title = (some (str "T")).getD (str "C") ∧
      sec'.content = (none : Option Str).getD (str "c") ∧
      sec'.display_order = (some (5 : Int)).getD 0 :=
  (update_section_parent_frame ⟨[⟨1, none, str "P", str "", 0, 0, 0⟩,
      ⟨2, some 1, str "C", str "c", 0, 0, 0⟩], 3, 2⟩ 2
    ⟨some (str "T"), none, none, some 5⟩ ⟨2, some 1, str "C", str "c", 0, 0, 0⟩
    (by decide)).1 rfl

/-- Any successful recall submission persists the session built from the
head of the resolved section list. -/
theorem analyze_user_recall_ok_shape :
    ∀ (rows : List NoteSection) (rst : RecallStore) (submission : RecallSubmission)
      (analysis : Analysis) (rst' : RecallStore) (sess : RecallSession),
      analyze_user_recall rows rst submission analysis = .ok (rst', sess) →
      ∃ primary rest,
        resolveSections rows submission.section_ids submission.include_subsections
          = primary :: rest ∧
        sess = ⟨rst.nextId, primary.id, submission.user_recall,
                analysis.score, analysis.correct_points, analysis.missed_points,
                analysis.inaccuracies, analysis.suggestions, analysis.summary,
                analysis.score.getD 0, rst.clock⟩ := by
  intro rows rst submission analysis rst' sess hok
  rw [analyze_user_recall] at hok
  by_cases h1 : submission.section_ids.isEmpty = true
  · rw [if_pos h1] at hok; exact Except.noConfusion hok
  · rw [if_neg h1] at hok
    by_cases h2 : (pyStrip submission.user_recall).isEmpty = true
    · rw [if_pos h2] at hok; exact Except.noConfusion hok
    · rw [if_neg h2] at hok
      rcases hres : resolveSections rows submission.section_ids submission.include_subsections
        with _ | ⟨primary, rest⟩ <;> rw [hres] at hok <;> simp only at hok
      · exact Except.noConfusion hok
      · by_cases h3 :
          (pyStrip (collect_content_from_sections (primary :: rest))).isEmpty = true
        · rw [if_pos h3] at hok; exact Except.noConfusion hok
        · rw [if_neg h3] at hok
          simp only [Except.ok.injEq, Prod.mk.injEq] at hok
          exact ⟨primary, rest, rfl, hok.2.symm⟩

/-- The id-deduplicating fold only ever appends to its accumulator. -/
theorem dedup_inner_append :
    ∀ (secs : List NoteSection) (acc : List NoteSection),
      ∃ tail, secs.foldl
        (fun acc sec =>
          if (acc.map (fun s => s.id)).contains sec.id then acc else acc ++ [sec])
        acc = acc ++ tail := by
  intro secs
  induction secs with
  | nil => exact fun acc => ⟨[], (List.append_nil acc).symm⟩
  | cons s ss ih =>
    intro acc
    rw [List.foldl_cons]
    by_cases hc : (acc.map (fun x => x.id)).contains s.id = true
    · rw [if_pos hc]; exact ih acc
    · rw [if_neg hc]
      obtain ⟨tail, htail⟩ := ih (acc ++ [s])
      exact ⟨[s] ++ tail, by rw [htail, List.append_assoc]⟩

/-- The whole resolution loop only ever appends to its accumulator. -/
theorem resolve_outer_append :
    ∀ (rows : List NoteSection) (inc : Bool) (ids : List Nat) (acc : List NoteSection),
      ∃ tail, ids.foldl
        (fun all_sections sid =>
          (get_section_with_children rows sid inc).foldl
            (fun acc sec =>
              if (acc.map (fun s => s.id)).contains sec.id then acc else acc ++ [sec])
            all_sections)
        acc = acc ++ tail := by
  intro rows inc ids
  induction ids with
  | nil => exact fun acc => ⟨[], (List.append_nil acc).symm⟩
  | cons q qs ih =>
    intro acc
    rw [List.foldl_cons]
    obtain ⟨t1, ht1⟩ := dedup_inner_append (get_section_with_children rows q inc) acc
    rw [ht1]
    obtain ⟨t2, ht2⟩ := ih (acc ++ t1)
    exact ⟨t1 ++ t2, by rw [ht2, List.append_assoc]⟩

/-- When the first requested id resolves, the resolved list starts with
that section. -/
theorem resolve_cons_of_first_found :
    ∀ (rows : List NoteSection) (q : Nat) (qrest : List Nat) (inc : Bool) (s0 : NoteSection),
      rows.find? (fun s => s.id == q) = some s0 →
      ∃ rest, resolveSections rows (q :: qrest) inc = s0 :: rest := by
  intro rows q qrest inc s0 hfind
  rw [resolveSections, List.foldl_cons]
  rw [get_section_with_children, hfind]
  rw [List.foldl_cons]
  simp only [List.map_nil, List.contains_nil, Bool.false_eq_true, if_false,
    List.nil_append]
  obtain ⟨t1, ht1⟩ := dedup_inner_append
    (if inc = true then childrenOf rows s0.id else []) [s0]
  rw [ht1]
  obtain ⟨t2, ht2⟩ := resolve_outer_append rows inc qrest ([s0] ++ t1)
  rw [ht2]
  exact ⟨t1 ++ t2, by rw [List.append_assoc]; rfl⟩

/-- Claim C4 counterexample: with only section 1 existing, submitting
`section_ids = [2, 1]` succeeds and persists `section_id = 1`, not the
first id in the caller's requested list (2). -/
theorem recall_primary_not_first_requested :
    analyze_user_recall oneSectionRows ⟨[], 1, 0⟩
        ⟨[2, 1], str "I remember", true⟩ fallbackAnalysis
      = .ok (⟨[fallbackSession], 2, 1⟩, fallbackSession) ∧
    fallbackSession.section_id = 1 ∧
    (⟨[2, 1], str "I remember", true⟩ : RecallSubmission).section_ids.headD 0 = 2 ∧
    (1 : Nat) ≠ 2 := by decide

/-- Claim C4 (amended): the persisted RecallSession's `section_id` is the id
of the first RESOLVED section — which equals the first id in the caller's
requested list whenever that id resolves, but falls back to the first id
that does resolve when it does not. -/
theorem recall_session_keyed_to_first_resolved :
    ∀ (rows : List NoteSection) (rst : RecallStore) (submission : RecallSubmission)
      (analysis : Analysis) (rst' : RecallStore) (sess : RecallSession),
      analyze_user_recall rows rst submission analysis = .ok (rst', sess) →
      (∃ primary rest,
        resolveSections rows submission.section_ids submission.include_subsections
          = primary :: rest ∧ sess.section_id = primary.id)
      ∧ (∀ (q : Nat) (qrest : List Nat) (s0 : NoteSection),
          submission.section_ids = q :: qrest →
          rows.find? (fun s => s.id == q) = some s0 →
          sess.section_id = s0.id) := by
  intro rows rst submission analysis rst' sess hok
  obtain ⟨primary, rest, hres, hsess⟩ :=
    analyze_user_recall_ok_shape rows rst submission analysis rst' sess hok
  constructor
  · exact ⟨primary, rest, hres, by rw [hsess]⟩
  · intro q qrest s0 hids hfind
    obtain ⟨rest', hres'⟩ :=
      resolve_cons_of_first_found rows q qrest submission.include_subsections s0 hfind
    rw [hids] at hres
    rw [hres'] at hres
    have hps : primary = s0 := (List.cons.injEq _ _ _ _ ▸ hres.symm).1
    rw [hsess, hps]

/-- Witness for C4 (amended): on the concrete missing-first-id scenario the
persisted session is keyed to the first resolved section. -/
theorem recall_session_keyed_to_first_resolved_witness :
    ∃ primary rest,
      resolveSections oneSectionRows [2, 1] true = primary :: rest ∧
      fallbackSession.section_id = primary.id :=
  (recall_session_keyed_to_first_resolved oneSectionRows ⟨[], 1, 0⟩
    ⟨[2, 1], str "I remember", true⟩ fallbackAnalysis
    ⟨[fallbackSession], 2, 1⟩ fallbackSession (by decide)).1

/-- Claim C5: when the (fence-stripped) LLM response fails JSON parsing,
`analyze_recall` returns the fixed fallback Analysis, and a recall
submission using that result still succeeds, persisting `score = 0` and the
fallback summary; the concrete one-section scenario persists exactly the
fallback session. -/
theorem analyze_recall_parse_failure_fallback :
    ∀ (jsonLoads : Str → Option Analysis) (response : Str),
      jsonLoads (pyStrip (extractJsonBlock response)) = none →
      analyze_recall jsonLoads response = fallbackAnalysis
      ∧ (∀ (rows : List NoteSection) (rst : RecallStore) (submission : RecallSubmission)
          (rst' : RecallStore) (sess : RecallSession),
          analyze_user_recall rows rst submission (analyze_recall jsonLoads response)
            = .ok (rst', sess) →
          sess.score = 0 ∧
          sess.analysis_summary = some (str "Analysis failed due to a processing error."))
      ∧ analyze_user_recall oneSectionRows ⟨[], 1, 0⟩
          ⟨[1], str "I remember", true⟩ (analyze_recall jsonLoads response)
          = .ok (⟨[fallbackSession], 2, 1⟩, fallbackSession) := by
  intro jsonLoads response hparse
  have hfb : analyze_recall jsonLoads response = fallbackAnalysis := by
    rw [analyze_recall, hparse]
  refine ⟨hfb, ?_, ?_⟩
  · intro rows rst submission rst' sess hok
    obtain ⟨primary, rest, -, hsess⟩ :=
      analyze_user_recall_ok_shape rows rst submission _ rst' sess hok
    rw [hsess, hfb]
    exact ⟨rfl, rfl⟩
  · rw [hfb]
    decide

/-- Witness for C5: a gateway returning unparsable text produces the
fallback value and a successfully persisted fallback session. -/
theorem analyze_recall_parse_failure_fallback_witness :
    analyze_recall (fun _ => none) (str "oops, not json") = fallbackAnalysis
    ∧ (∀ (rows : List NoteSection) (rst : RecallStore) (submission : RecallSubmission)
        (rst' : RecallStore) (sess : RecallSession),
        analyze_user_recall rows rst submission
            (analyze_recall (fun _ => none) (str "oops, not json"))
          = .ok (rst', sess) →
        sess.score = 0 ∧
        sess.analysis_summary = some (str "Analysis failed due to a processing error."))
    ∧ analyze_user_recall oneSectionRows ⟨[], 1, 0⟩
        ⟨[1], str "I remember", true⟩
        (analyze_recall (fun _ => none) (str "oops, not json"))
        = .ok (⟨[fallbackSession], 2, 1⟩, fallbackSession) :=
  analyze_recall_parse_failure_fallback (fun _ => none) (str "oops, not json") rfl

/-- Requested ids that all fail to resolve leave the accumulator of the
resolution loop unchanged. -/
theorem resolve_foldl_missing :
    ∀ (rows : List NoteSection) (inc : Bool) (ids : List Nat) (acc : List NoteSection),
      (∀ sid ∈ ids, rows.find? (fun s => s.id == sid) = none) →
      ids.foldl
        (fun all_sections sid =>
          (get_section_with_children rows sid inc).foldl
            (fun acc sec =>
              if (acc.map (fun s => s.id)).contains sec.id then acc else acc ++ [sec])
            all_sections)
        acc = acc := by
  intro rows inc ids
  induction ids with
  | nil => intro acc _; rfl
  | cons q qs ih =>
    intro acc hmiss
    rw [List.foldl_cons]
    have hq : rows.find? (fun s => s.id == q) = none :=
      hmiss q (List.mem_cons_self q qs)
    rw [get_section_with_children, hq]
    rw [List.foldl_nil]
    exact ih acc (fun sid hs => hmiss sid (List.mem_cons_of_mem q hs))

/-- Claim C6: when none of the (non-empty list of) requested ids resolves,
both the quiz-generation and the recall pipelines fail with the 404
`No sections found` error — the empty-resolved-set check fires before the
blank-content check, so `EmptyContent` is never produced. -/
theorem no_sections_found_before_empty_content :
    ∀ (rows : List NoteSection) (ids : List Nat) (inc : Bool),
      ids ≠ [] →
      (∀ sid ∈ ids, rows.find? (fun s => s.id == sid) = none) →
      (∀ (qst : QuizStore) (nq : Nat) (qt ci : Str) (drafts : List QuestionDraft),
        generate_quiz rows qst ⟨ids, nq, qt, ci, inc⟩ drafts
          = .error ⟨404, str "No sections found"⟩)
      ∧ (∀ (rst : RecallStore) (rtext : Str) (analysis : Analysis),
          pyStrip rtext ≠ [] →
          analyze_user_recall rows rst ⟨ids, rtext, inc⟩ analysis
            = .error ⟨404, str "No sections found"⟩) := by
  intro rows ids inc hne hmiss
  have hres : resolveSections rows ids inc = [] := by
    rw [resolveSections]
    exact resolve_foldl_missing rows inc ids [] hmiss
  have hnemp : ids.isEmpty = false := by
    cases ids with
    | nil => exact absurd rfl hne
    | cons a as => rfl
  constructor
  · intro qst nq qt ci drafts
    rw [generate_quiz]
    simp only [hnemp, Bool.false_eq_true, if_false, hres]
  · intro rst rtext analysis hrec
    have hrecb : (pyStrip rtext).isEmpty = false := by
      cases hpr : pyStrip rtext with
      | nil => exact absurd hpr hrec
      | cons a as => rfl
    rw [analyze_user_recall]
    simp only [hnemp, hrecb, Bool.false_eq_true, if_false, hres]

/-- Witness for C6: a store with one section, a request for two absent ids. -/
theorem no_sections_found_before_empty_content_witness :
    generate_quiz oneSectionRows ⟨[], 1, 0⟩ ⟨[7, 8], 5, str "mixed", str "", true⟩ []
      = .error ⟨404, str "No sections found"⟩
    ∧ analyze_user_recall oneSectionRows ⟨[], 1, 0⟩
        ⟨[7, 8], str "I remember", true⟩ fallbackAnalysis
      = .error ⟨404, str "No sections found"⟩ :=
  ⟨(no_sections_found_before_empty_content oneSectionRows [7, 8] true
      (by decide) (by decide)).1 ⟨[], 1, 0⟩ 5 (str "mixed") (str "") [],
   (no_sections_found_before_empty_content oneSectionRows [7, 8] true
      (by decide) (by decide)).2 ⟨[], 1, 0⟩ (str "I remember") fallbackAnalysis
      (by decide)⟩

/-- Claim C2 (refuting evaluation): the import endpoint performs no depth
check — importing a 3-level document into an empty store creates a
grandchild row (id 3 under parent 2, whose own parent is 1), violating the
depth invariant that `create_section` and `update_section` enforce. -/
theorem import_creates_grandchild :
    (import_notes ⟨[], 1, 0⟩ threeLevelDoc).rows.map (fun r => (r.id, r.parent_id))
      = [(1, none), (2, some 1), (3, some 2)]
    ∧ ¬ depthInvariant (import_notes ⟨[], 1, 0⟩ threeLevelDoc).rows := by
  constructor
  · decide
  · decide

/-- The tree builder keeps the section's `parent_id`, at any fuel. -/
theorem build_section_tree_parent_id (rows : List NoteSection) :
    ∀ (f : Nat) (s : NoteSection),
      (build_section_tree rows f s).parent_id = s.parent_id := by
  intro f s
  cases f <;> rfl

/-- The tree builder keeps the section's `title`, at any fuel. -/
theorem build_section_tree_title (rows : List NoteSection) :
    ∀ (f : Nat) (s : NoteSection), (build_section_tree rows f s).title = s.title := by
  intro f s
  cases f <;> rfl

/-- The tree builder keeps the section's `content`, at any fuel. -/
theorem build_section_tree_content (rows : List NoteSection) :
    ∀ (f : Nat) (s : NoteSection), (build_section_tree rows f s).content = s.content := by
  intro f s
  cases f <;> rfl

/-- With at least one unit of fuel, the two-level shape of a built tree is
the section's title, content and its children's titles and contents. -/
theorem treeTop_build (rows : List NoteSection) :
    ∀ (f : Nat) (s : NoteSection), 1 ≤ f →
      treeTop (build_section_tree rows f s)
        = (s.title, s.content,
           (childrenOf rows s.id).map (fun c => (c.title, c.content))) := by
  intro f s hf
  match f, hf with
  | g + 1, _ =>
    show treeTop (.mk s.id s.parent_id s.title s.content s.display_order
        s.created_at s.updated_at ((childrenOf rows s.id).map (build_section_tree rows g)))
      = _
    rw [treeTop]
    simp only [TreeNode.title, TreeNode.content, TreeNode.children, List.map_map]
    refine congrArg _ (congrArg _ ?_)
    apply List.map_congr_left
    intro c _
    show ((build_section_tree rows g c).title, (build_section_tree rows g c).content)
      = (c.title, c.content)
    rw [build_section_tree_title, build_section_tree_content]

/-- Two permuted lists, both sorted by display order, with pairwise
distinct display orders, are equal. -/
theorem eq_of_perm_sorted_distinct :
    ∀ (l₁ l₂ : List NoteSection),
      l₁.Perm l₂ →
      List.Pairwise dispLe l₁ → List.Pairwise dispLe l₂ →
      List.Pairwise (fun a b : NoteSection => a.display_order ≠ b.display_order) l₁ →
      l₁ = l₂ := by
  intro l₁ l₂ hp hs1 hs2 hd1
  have hd2 : List.Pairwise
      (fun a b : NoteSection => a.display_order ≠ b.display_order) l₂ :=
    (hp.pairwise_iff (fun h => h.symm)).mp hd1
  have hlt1 : List.Pairwise
      (fun a b : NoteSection => a.display_order < b.display_order) l₁ :=
    (hs1.and hd1).imp (fun h => lt_of_le_of_ne h.1 h.2)
  have hlt2 : List.Pairwise
      (fun a b : NoteSection => a.display_order < b.display_order) l₂ :=
    (hs2.and hd2).imp (fun h => lt_of_le_of_ne h.1 h.2)
  haveI : IsAntisymm NoteSection
      (fun a b : NoteSection => a.display_order < b.display_order) :=
    ⟨fun a b h1 h2 => absurd h1 (lt_asymm h2)⟩
  exact List.eq_of_perm_of_sorted hp hlt1 hlt2

/-- Distinct members of a list with pairwise-distinct display orders have
distinct display orders. -/
theorem ne_display_of_nodup_map_display {l : List NoteSection}
    (h : (l.map (fun s => s.display_order)).Nodup) :
    ∀ r ∈ l, ∀ q ∈ l, r ≠ q → r.display_order ≠ q.display_order :=
  fun r hr q hq hne hd => hne (List.inj_on_of_nodup_map h hr hq hd)

/-- The root sections of a store with unique ids and distinct top-level
display orders have pairwise-distinct display orders. -/
theorem roots_display_pairwise_ne (rows : List NoteSection)
    (hids : (rows.map (fun s => s.id)).Nodup)
    (hrd : rootOrdersDistinct rows) :
    List.Pairwise (fun a b : NoteSection => a.display_order ≠ b.display_order)
      (rows.filter (fun s => s.parent_id == none)) := by
  have hrows : rows.Nodup := List.Nodup.of_map _ hids
  have hroots : (rows.filter (fun s => s.parent_id == none)).Nodup :=
    hrows.filter _
  have hpairne : List.Pairwise (fun a b : NoteSection => a ≠ b)
      (rows.filter (fun s => s.parent_id == none)) := hroots
  refine hpairne.imp_of_mem ?_
  intro a b ha hb hne
  obtain ⟨haR, hpa⟩ := List.mem_filter.mp ha
  obtain ⟨hbR, hpb⟩ := List.mem_filter.mp hb
  exact hrd a haR b hbR hne (by simpa using hpa) (by simpa using hpb)

/-- Flat listing restricted to top-level entries coincides with the
display-ordered root list, rendered through the tree builder: the shared
canonicalization step of the round-trip claim. -/
theorem flat_roots_canonical (st : Store)
    (hids : (st.rows.map (fun s => s.id)).Nodup)
    (hrd : rootOrdersDistinct st.rows) :
    (rootsOfFlat (list_sections_flat st)).map treeTop = canonical2 st.rows := by
  rw [list_sections_flat, rootsOfFlat, List.filter_map]
  have hcong : List.filter
      ((fun t => t.parent_id == none) ∘ build_section_tree st.rows st.rows.length)
      (List.insertionSort flatLe st.rows)
      = List.filter (fun s => s.parent_id == none)
          (List.insertionSort flatLe st.rows) := by
    apply List.filter_congr
    intro x _
    simp [Function.comp, build_section_tree_parent_id]
  rw [hcong]
  have hsorteq : (List.insertionSort flatLe st.rows).filter
        (fun s => s.parent_id == none)
      = List.insertionSort dispLe
          (st.rows.filter (fun s => s.parent_id == none)) := by
    apply eq_of_perm_sorted_distinct
    · exact ((List.perm_insertionSort flatLe st.rows).filter _).trans
        (List.perm_insertionSort dispLe _).symm
    · have hflat : List.Pairwise flatLe (List.insertionSort flatLe st.rows) :=
        List.sorted_insertionSort flatLe st.rows
      have hsub : List.Pairwise flatLe
          ((List.insertionSort flatLe st.rows).filter (fun s => s.parent_id == none)) :=
        List.Pairwise.sublist (List.filter_sublist _) hflat
      refine hsub.imp_of_mem ?_
      intro a b ha hb hab
      have hpa : a.parent_id = none := by
        have := (List.mem_filter.mp ha).2
        simpa using this
      have hpb : b.parent_id = none := by
        have := (List.mem_filter.mp hb).2
        simpa using this
      rw [flatLe, hpa, hpb] at hab
      rw [dispLe]
      rcases hab with h | ⟨-, h | ⟨h, -⟩⟩
      · exact absurd h (lt_irrefl _)
      · exact le_of_lt h
      · exact le_of_eq h
    · exact List.sorted_insertionSort dispLe _
    · have hperm : ((List.insertionSort flatLe st.rows).filter
            (fun s => s.parent_id == none)).Perm
          (st.rows.filter (fun s => s.parent_id == none)) :=
        (List.perm_insertionSort flatLe st.rows).filter _
      exact (hperm.pairwise_iff (fun h => h.symm)).mpr
        (roots_display_pairwise_ne st.rows hids hrd)
  rw [hsorteq, canonical2, List.map_map]
  apply List.map_congr_left
  intro r hr
  have hrroots : r ∈ st.rows.filter (fun s => s.parent_id == none) :=
    (List.perm_insertionSort dispLe _).mem_iff.mp hr
  have hrrows : r ∈ st.rows := (List.mem_filter.mp hrroots).1
  exact treeTop_build st.rows st.rows.length r (List.length_pos_of_mem hrrows)

/-- Importing a document of leaf entries appends exactly one row per entry,
with consecutive ids and clocks. -/
theorem import_children_leafDoc :
    ∀ (cs : List NoteSection) (st : Store) (pid : Option Nat),
      import_children st pid (ImportSectionList.ofList (cs.map (fun c =>
        ImportSection.mk c.title c.content c.display_order .nil)))
        = ⟨st.rows ++ importedLeafRows pid st.nextId st.clock cs,
           st.nextId + cs.length, st.clock + cs.length⟩ := by
  intro cs
  induction cs with
  | nil =>
    intro st pid
    show st = _
    cases st with
    | mk rows nid clk => simp [importedLeafRows]
  | cons c cs ih =>
    intro st pid
    have hstep : import_children st pid
        (ImportSectionList.ofList ((c :: cs).map (fun c =>
          ImportSection.mk c.title c.content c.display_order .nil)))
      = import_children
          ⟨st.rows ++ [⟨st.nextId, pid, c.title, c.content, c.display_order,
              st.clock, st.clock⟩],
           st.nextId + 1, st.clock + 1⟩ pid
          (ImportSectionList.ofList (cs.map (fun c =>
            ImportSection.mk c.title c.content c.display_order .nil))) := rfl
    rw [hstep, ih]
    simp only [importedLeafRows, List.append_assoc, List.cons_append,
      List.nil_append, List.length_cons, Store.mk.injEq]
    refine ⟨trivial, ?_, ?_⟩ <;> omega

/-- Importing the round-trip document appends exactly the block rows of
`importedRootRows`. -/
theorem import_children_rootDoc :
    ∀ (rows : List NoteSection) (rs : List NoteSection) (st : Store),
      import_children st none (rootDoc rows rs)
        = ⟨st.rows ++ importedRootRows rows st.nextId st.clock rs,
           st.nextId + totalSize rows rs, st.clock + totalSize rows rs⟩ := by
  intro rows rs
  induction rs with
  | nil =>
    intro st
    show st = _
    cases st with
    | mk r nid clk => simp [importedRootRows, totalSize, rootDoc, ImportSectionList.ofList]
  | cons r rs ih =>
    intro st
    have hstep : import_children st none (rootDoc rows (r :: rs))
      = import_children
          (import_children
            ⟨st.rows ++ [⟨st.nextId, none, r.title, r.content, r.display_order,
                st.clock, st.clock⟩],
             st.nextId + 1, st.clock + 1⟩
            (some st.nextId)
            (ImportSectionList.ofList ((childrenOf rows r.id).map (fun c =>
              ImportSection.mk c.title c.content c.display_order .nil))))
          none (rootDoc rows rs) := rfl
    rw [hstep, import_children_leafDoc, ih]
    simp only [importedRootRows, totalSize, List.append_assoc, List.cons_append,
      List.nil_append, Store.mk.injEq]
    refine ⟨trivial, ?_, ?_⟩ <;> omega

/-- Every row imported for a leaf document carries the given parent id. -/
theorem importedLeafRows_parent :
    ∀ (cs : List NoteSection) (pid : Option Nat) (nid clk : Nat) (x : NoteSection),
      x ∈ importedLeafRows pid nid clk cs → x.parent_id = pid := by
  intro cs
  induction cs with
  | nil => intro pid nid clk x hx; cases hx
  | cons c cs ih =>
    intro pid nid clk x hx
    rcases List.mem_cons.mp hx with rfl | hx'
    · rfl
    · exact ih pid (nid + 1) (clk + 1) x hx'

/-- Imported leaf rows keep the source display orders, in order. -/
theorem importedLeafRows_map_display :
    ∀ (cs : List NoteSection) (pid : Option Nat) (nid clk : Nat),
      (importedLeafRows pid nid clk cs).map (fun s => s.display_order)
        = cs.map (fun s => s.display_order) := by
  intro cs
  induction cs with
  | nil => intro pid nid clk; rfl
  | cons c cs ih => intro pid nid clk; simp [importedLeafRows, ih]

/-- Imported leaf rows keep the source titles and contents, in order. -/
theorem importedLeafRows_map_tc :
    ∀ (cs : List NoteSection) (pid : Option Nat) (nid clk : Nat),
      (importedLeafRows pid nid clk cs).map (fun c => (c.title, c.content))
        = cs.map (fun c => (c.title, c.content)) := by
  intro cs
  induction cs with
  | nil => intro pid nid clk; rfl
  | cons c cs ih => intro pid nid clk; simp [importedLeafRows, ih]

/-- Imported leaf rows receive consecutive ids. -/
theorem importedLeafRows_map_id :
    ∀ (cs : List NoteSection) (pid : Option Nat) (nid clk : Nat),
      (importedLeafRows pid nid clk cs).map (fun s => s.id)
        = List.range' nid cs.length := by
  intro cs
  induction cs with
  | nil => intro pid nid clk; rfl
  | cons c cs ih => intro pid nid clk; simp [importedLeafRows, ih, List.range'_succ]

/-- Filtering imported leaf rows by their own parent keeps them all. -/
theorem importedLeafRows_filter_self :
    ∀ (cs : List NoteSection) (m : Nat) (nid clk : Nat),
      (importedLeafRows (some m) nid clk cs).filter (fun r => r.parent_id == some m)
        = importedLeafRows (some m) nid clk cs := by
  intro cs m nid clk
  rw [List.filter_eq_self]
  intro x hx
  rw [importedLeafRows_parent cs (some m) nid clk x hx]
  simp

/-- Filtering imported leaf rows by any other parent removes them all. -/
theorem importedLeafRows_filter_ne :
    ∀ (cs : List NoteSection) (pid : Option Nat) (q : Option Nat) (nid clk : Nat),
      pid ≠ q →
      (importedLeafRows pid nid clk cs).filter (fun r => r.parent_id == q) = [] := by
  intro cs pid q nid clk hne
  rw [List.filter_eq_nil]
  intro x hx
  rw [importedLeafRows_parent cs pid nid clk x hx]
  simpa using hne

/-- Imported top-level rows are exactly the root-parented rows of the
import. -/
theorem importedRootRows_filter_root :
    ∀ (rows rs : List NoteSection) (nid clk : Nat),
      (importedRootRows rows nid clk rs).filter (fun r => r.parent_id == none)
        = importedRootsOnly rows nid clk rs := by
  intro rows rs
  induction rs with
  | nil => intro nid clk; rfl
  | cons r rs ih =>
    intro nid clk
    rw [importedRootRows, importedRootsOnly, List.filter_cons, List.filter_append]
    rw [importedLeafRows_filter_ne _ _ _ _ _ (by simp), ih]
    simp

/-- Every parent reference among imported rows is null or at least the
starting id. -/
theorem importedRootRows_parent_bound :
    ∀ (rows rs : List NoteSection) (nid clk : Nat) (x : NoteSection),
      x ∈ importedRootRows rows nid clk rs →
      x.parent_id = none ∨ ∃ m, x.parent_id = some m ∧ nid ≤ m := by
  intro rows rs
  induction rs with
  | nil => intro nid clk x hx; cases hx
  | cons r rs ih =>
    intro nid clk x hx
    rw [importedRootRows] at hx
    rcases List.mem_cons.mp hx with rfl | hx'
    · exact Or.inl rfl
    · rcases List.mem_append.mp hx' with hleaf | hrest
      · exact Or.inr ⟨nid, importedLeafRows_parent _ _ _ _ x hleaf, le_refl nid⟩
      · rcases ih _ _ x hrest with h | ⟨m, hm, hle⟩
        · exact Or.inl h
        · exact Or.inr ⟨m, hm, by omega⟩

/-- Imported rows have no child whose parent id predates the import. -/
theorem importedRootRows_filter_lt :
    ∀ (rows rs : List NoteSection) (nid clk m : Nat),
      m < nid →
      (importedRootRows rows nid clk rs).filter (fun r => r.parent_id == some m)
        = [] := by
  intro rows rs nid clk m hm
  rw [List.filter_eq_nil]
  intro x hx
  rcases importedRootRows_parent_bound rows rs nid clk x hx with h | ⟨m', hm', hle⟩
  · simp [h]
  · simp only [hm', beq_iff_eq, Option.some.injEq]
    omega

/-- Imported rows receive consecutive ids. -/
theorem importedRootRows_map_id :
    ∀ (rows rs : List NoteSection) (nid clk : Nat),
      (importedRootRows rows nid clk rs).map (fun s => s.id)
        = List.range' nid (totalSize rows rs) := by
  intro rows rs
  induction rs with
  | nil => intro nid clk; rfl
  | cons r rs ih =>
    intro nid clk
    rw [importedRootRows, totalSize]
    simp only [List.map_cons, List.map_append, importedLeafRows_map_id, ih]
    have h1 : List.range' (nid + 1) (childrenOf rows r.id).length
        ++ List.range' (nid + 1 + (childrenOf rows r.id).length) (totalSize rows rs)
        = List.range' (nid + 1) (totalSize rows rs + (childrenOf rows r.id).length) := by
      have h := List.range'_append (nid + 1) (childrenOf rows r.id).length
        (totalSize rows rs) 1
      simpa using h
    rw [h1]
    have h2 : 1 + (childrenOf rows r.id).length + totalSize rows rs
        = (totalSize rows rs + (childrenOf rows r.id).length) + 1 := by omega
    rw [h2, List.range'_succ]

/-- The top-level rows of an import keep the source display orders. -/
theorem importedRootsOnly_map_display :
    ∀ (rows rs : List NoteSection) (nid clk : Nat),
      (importedRootsOnly rows nid clk rs).map (fun s => s.display_order)
        = rs.map (fun s => s.display_order) := by
  intro rows rs
  induction rs with
  | nil => intro nid clk; rfl
  | cons r rs ih => intro nid clk; simp [importedRootsOnly, ih]

/-- Every imported top-level row is top-level. -/
theorem importedRootsOnly_parent :
    ∀ (rows rs : List NoteSection) (nid clk : Nat) (x : NoteSection),
      x ∈ importedRootsOnly rows nid clk rs → x.parent_id = none := by
  intro rows rs
  induction rs with
  | nil => intro nid clk x hx; cases hx
  | cons r rs ih =>
    intro nid clk x hx
    rcases List.mem_cons.mp hx with rfl | hx'
    · rfl
    · exact ih _ _ x hx'

/-- Under the depth invariant a subsection has no children. -/
theorem childrenOf_child_empty :
    ∀ (rows : List NoteSection) (c : NoteSection),
      depthInvariant rows → c ∈ rows → c.parent_id ≠ none →
      childrenOf rows c.id = [] := by
  intro rows c hdep hc hpc
  rw [childrenOf]
  have hnil : rows.filter (fun r => r.parent_id == some c.id) = [] := by
    rw [List.filter_eq_nil]
    intro x hx hbeq
    exact hpc (hdep x hx c hc (by simpa using hbeq))
  rw [hnil]
  rfl

/-- Exporting a childless section and re-reading it as an import model
yields a leaf entry, at any fuel on either side. -/
theorem export_convert_child :
    ∀ (rows : List NoteSection) (f g : Nat) (c : NoteSection),
      childrenOf rows c.id = [] →
      exportToImport f (export_section_node rows g c)
        = ImportSection.mk c.title c.content c.display_order .nil := by
  intro rows f g c hemp
  cases g with
  | zero => cases f with
    | zero => rfl
    | succ f => rfl
  | succ g =>
    have hg : export_section_node rows (g + 1) c
        = .mk c.title c.content c.display_order c.created_at c.updated_at [] := by
      show ExportNode.mk c.title c.content c.display_order c.created_at c.updated_at
          ((childrenOf rows c.id).map (export_section_node rows g)) = _
      rw [hemp]
      rfl
    rw [hg]
    cases f with
    | zero => rfl
    | succ f => rfl

/-- The document a round trip feeds to the import endpoint is exactly the
two-level document of the sorted top-level sections. -/
theorem export_roundtrip_doc (st : Store) (hdep : depthInvariant st.rows) :
    ImportSectionList.ofList
        ((export_all_notes st).map (exportToImport st.rows.length))
      = rootDoc st.rows
          (List.insertionSort dispLe
            (st.rows.filter (fun s => s.parent_id == none))) := by
  rw [export_all_notes, rootDoc, List.map_map]
  refine congrArg ImportSectionList.ofList ?_
  apply List.map_congr_left
  intro r hr
  have hrmem : r ∈ st.rows :=
    (List.mem_filter.mp ((List.perm_insertionSort dispLe _).mem_iff.mp hr)).1
  obtain ⟨m, hm⟩ : ∃ m, st.rows.length = m + 1 :=
    ⟨st.rows.length - 1, by have := List.length_pos_of_mem hrmem; omega⟩
  show exportToImport st.rows.length (export_section_node st.rows st.rows.length r) = _
  rw [hm]
  rw [show export_section_node st.rows (m + 1) r
      = ExportNode.mk r.title r.content r.display_order r.created_at r.updated_at
          ((childrenOf st.rows r.id).map (export_section_node st.rows m)) from rfl]
  rw [show exportToImport (m + 1)
        (ExportNode.mk r.title r.content r.display_order r.created_at r.updated_at
          ((childrenOf st.rows r.id).map (export_section_node st.rows m)))
      = ImportSection.mk r.title r.content r.display_order
          (ImportSectionList.ofList
            (((childrenOf st.rows r.id).map (export_section_node st.rows m)).map
              (exportToImport m))) from rfl]
  rw [List.map_map]
  refine congrArg (fun l => ImportSection.mk r.title r.content r.display_order
    (ImportSectionList.ofList l)) ?_
  apply List.map_congr_left
  intro c hc
  have hcfil : c ∈ st.rows.filter (fun x => x.parent_id == some r.id) :=
    (List.perm_insertionSort dispLe _).mem_iff.mp hc
  obtain ⟨hcm, hcp⟩ := List.mem_filter.mp hcfil
  have hcpar : c.parent_id ≠ none := by
    have : c.parent_id = some r.id := by simpa using hcp
    simp [this]
  exact export_convert_child st.rows m m c
    (childrenOf_child_empty st.rows c hdep hcm hcpar)

/-- Every non-null parent reference in an imported store points at an
imported top-level row. -/
theorem importedRootRows_parent_root :
    ∀ (rows rs : List NoteSection) (nid clk : Nat) (x : NoteSection) (m : Nat),
      x ∈ importedRootRows rows nid clk rs →
      x.parent_id = some m →
      ∃ y ∈ importedRootRows rows nid clk rs, y.id = m ∧ y.parent_id = none := by
  intro rows rs
  induction rs with
  | nil => intro nid clk x m hx; cases hx
  | cons r rs ih =>
    intro nid clk x m hx hpx
    rw [importedRootRows] at hx ⊢
    rcases List.mem_cons.mp hx with rfl | hx'
    · cases hpx
    · rcases List.mem_append.mp hx' with hleaf | hrest
      · have : x.parent_id = some nid := importedLeafRows_parent _ _ _ _ x hleaf
        rw [hpx] at this
        obtain rfl : nid = m := by injection this.symm
        exact ⟨_, List.mem_cons_self _ _, rfl, rfl⟩
      · obtain ⟨y, hy, hyid, hyp⟩ := ih _ _ x m hrest hpx
        exact ⟨y, List.mem_cons_of_mem _ (List.mem_append_right _ hy), hyid, hyp⟩

/-- An imported store satisfies the depth invariant. -/
theorem roundtrip_depthInvariant :
    ∀ (rows rs : List NoteSection) (nid clk : Nat),
      depthInvariant (importedRootRows rows nid clk rs) := by
  intro rows rs nid clk r hr q hq hparent
  obtain ⟨y, hy, hyid, hypar⟩ :=
    importedRootRows_parent_root rows rs nid clk r q.id hr hparent
  have hids : ((importedRootRows rows nid clk rs).map (fun s => s.id)).Nodup := by
    rw [importedRootRows_map_id]
    exact List.nodup_range' _ _
  have : y = q := List.inj_on_of_nodup_map hids hy hq (by rw [hyid])
  rw [← this]
  exact hypar

/-- A property of display orders transfers along equal display projections. -/
theorem pairwise_display_transfer (R : Int → Int → Prop)
    {l₁ l₂ : List NoteSection}
    (hmap : l₁.map (fun s => s.display_order) = l₂.map (fun s => s.display_order))
    (h2 : List.Pairwise (fun a b : NoteSection =>
      R a.display_order b.display_order) l₂) :
    List.Pairwise (fun a b : NoteSection =>
      R a.display_order b.display_order) l₁ := by
  have h2' := List.pairwise_map.mpr h2
  rw [← hmap] at h2'
  exact List.pairwise_map.mp h2'

/-- Core of the round-trip argument: the imported top-level rows, each taken
with its children in the imported store (behind any prefix without forward
parent references), present exactly the source's two-level shapes. -/
theorem canonical_blocks :
    ∀ (rows rs : List NoteSection) (nid clk : Nat) (P : List NoteSection),
      (∀ m, nid ≤ m → P.filter (fun r => r.parent_id == some m) = []) →
      (importedRootsOnly rows nid clk rs).map
        (fun row => (row.title, row.content,
          (childrenOf (P ++ importedRootRows rows nid clk rs) row.id).map
            (fun c => (c.title, c.content))))
      = rs.map (fun r => (r.title, r.content,
          (childrenOf rows r.id).map (fun c => (c.title, c.content)))) := by
  intro rows rs
  induction rs with
  | nil => intro nid clk P hP; rfl
  | cons r rs ih =>
    intro nid clk P hP
    simp only [importedRootsOnly, importedRootRows, List.map_cons]
    refine congrArg₂ List.cons ?_ ?_
    · have hhead : childrenOf
          (P ++ (⟨nid, none, r.title, r.content, r.display_order, clk, clk⟩
            :: (importedLeafRows (some nid) (nid + 1) (clk + 1) (childrenOf rows r.id)
                ++ importedRootRows rows (nid + 1 + (childrenOf rows r.id).length)
                    (clk + 1 + (childrenOf rows r.id).length) rs))) nid
          = importedLeafRows (some nid) (nid + 1) (clk + 1) (childrenOf rows r.id) := by
        rw [childrenOf, List.filter_append, hP nid (le_refl nid), List.filter_cons]
        rw [show ((⟨nid, none, r.title, r.content, r.display_order, clk, clk⟩
            : NoteSection).parent_id == some nid) = false from rfl]
        simp only [Bool.false_eq_true, if_false, List.nil_append]
        rw [List.filter_append, importedLeafRows_filter_self,
          importedRootRows_filter_lt rows rs _ _ nid (by omega), List.append_nil]
        apply List.Sorted.insertionSort_eq
        exact pairwise_display_transfer (fun a b => a ≤ b)
          (importedLeafRows_map_display _ _ _ _)
          (List.sorted_insertionSort dispLe
            (rows.filter (fun x => x.parent_id == some r.id)))
      rw [hhead, importedLeafRows_map_tc]
    · have hbase : P ++ (⟨nid, none, r.title, r.content, r.display_order, clk, clk⟩
          :: (importedLeafRows (some nid) (nid + 1) (clk + 1) (childrenOf rows r.id)
              ++ importedRootRows rows (nid + 1 + (childrenOf rows r.id).length)
                  (clk + 1 + (childrenOf rows r.id).length) rs))
          = (P ++ (⟨nid, none, r.title, r.content, r.display_order, clk, clk⟩
              :: importedLeafRows (some nid) (nid + 1) (clk + 1) (childrenOf rows r.id)))
            ++ importedRootRows rows (nid + 1 + (childrenOf rows r.id).length)
                (clk + 1 + (childrenOf rows r.id).length) rs := by
        rw [List.append_assoc, List.cons_append]
      rw [hbase]
      apply ih
      intro m hm
      rw [List.filter_append, List.filter_cons]
      rw [show ((⟨nid, none, r.title, r.content, r.display_order, clk, clk⟩
          : NoteSection).parent_id == some m) = false from by simp]
      simp only [Bool.false_eq_true, if_false]
      rw [hP m (by omega), importedLeafRows_filter_ne _ _ _ _ _ (by
        simp only [ne_eq, Option.some.injEq]
        omega)]
      rfl

/-- The round trip produces exactly the imported block rows of the sorted
top-level sections. -/
theorem roundtrip_rows (st : Store) (n0 c0 : Nat) (hdep : depthInvariant st.rows) :
    exportImportRoundtrip st n0 c0
      = ⟨importedRootRows st.rows n0 c0
           (List.insertionSort dispLe (st.rows.filter (fun s => s.parent_id == none))),
         n0 + totalSize st.rows
           (List.insertionSort dispLe (st.rows.filter (fun s => s.parent_id == none))),
         c0 + totalSize st.rows
           (List.insertionSort dispLe (st.rows.filter (fun s => s.parent_id == none)))⟩ := by
  rw [exportImportRoundtrip, import_notes, export_roundtrip_doc st hdep,
    import_children_rootDoc]
  rfl

/-- The canonical two-level shape of an imported store equals that of its
source document. -/
theorem canonical2_imported (rows rs : List NoteSection) (n0 c0 : Nat)
    (hsorted : List.Pairwise dispLe rs) :
    canonical2 (importedRootRows rows n0 c0 rs)
      = rs.map (fun r => (r.title, r.content,
          (childrenOf rows r.id).map (fun c => (c.title, c.content)))) := by
  rw [canonical2, importedRootRows_filter_root]
  have hs : List.Sorted dispLe (importedRootsOnly rows n0 c0 rs) :=
    pairwise_display_transfer (fun a b => a ≤ b)
      (importedRootsOnly_map_display rows rs n0 c0) hsorted
  rw [List.Sorted.insertionSort_eq hs]
  have h := canonical_blocks rows rs n0 c0 [] (fun m _ => rfl)
  simpa using h

/-- Sorted top-level sections of a well-formed store have pairwise
distinct display orders. -/
theorem sortedRoots_display_nodup (st : Store)
    (hids : (st.rows.map (fun s => s.id)).Nodup)
    (hrd : rootOrdersDistinct st.rows) :
    ((List.insertionSort dispLe (st.rows.filter (fun s => s.parent_id == none))).map
      (fun s => s.display_order)).Nodup := by
  have hperm := (List.perm_insertionSort dispLe
    (st.rows.filter (fun s => s.parent_id == none))).map
      (fun s : NoteSection => s.display_order)
  rw [hperm.nodup_iff]
  exact List.pairwise_map.mpr (roots_display_pairwise_ne st.rows hids hrd)

/-- An imported store inherits distinct top-level display orders from its
document. -/
theorem roundtrip_rootOrdersDistinct (rows rs : List NoteSection) (nid clk : Nat)
    (hnd : (rs.map (fun s => s.display_order)).Nodup) :
    rootOrdersDistinct (importedRootRows rows nid clk rs) := by
  intro r hr q hq hne hpr hpq
  have hr' : r ∈ importedRootsOnly rows nid clk rs := by
    rw [← importedRootRows_filter_root]
    exact List.mem_filter.mpr ⟨hr, by simp [hpr]⟩
  have hq' : q ∈ importedRootsOnly rows nid clk rs := by
    rw [← importedRootRows_filter_root]
    exact List.mem_filter.mpr ⟨hq, by simp [hpq]⟩
  have hmap : ((importedRootsOnly rows nid clk rs).map
      (fun s => s.display_order)).Nodup := by
    rw [importedRootsOnly_map_display]
    exact hnd
  exact ne_display_of_nodup_map_display hmap r hr' q hq' hne

/-- Claim C3: for every store satisfying the data-model invariants (unique
ids, depth ≤ 2, distinct sibling display orders — here only the top-level
instance is needed), exporting everything and importing the document into
an empty store yields a store that again satisfies the depth invariant and
whose `list(flat=true)` top-level trees carry exactly the same titles,
contents and parent/children shapes in the same order as the original's;
only ids and timestamps differ. -/
theorem export_import_roundtrip_isomorphic :
    ∀ (st : Store) (n0 c0 : Nat),
      (st.rows.map (fun s => s.id)).Nodup →
      depthInvariant st.rows →
      rootOrdersDistinct st.rows →
      depthInvariant (exportImportRoundtrip st n0 c0).rows ∧
      (rootsOfFlat (list_sections_flat (exportImportRoundtrip st n0 c0))).map treeTop
        = (rootsOfFlat (list_sections_flat st)).map treeTop := by
  intro st n0 c0 hids hdep hrd
  have hR := roundtrip_rows st n0 c0 hdep
  constructor
  · rw [hR]
    exact roundtrip_depthInvariant _ _ _ _
  · rw [flat_roots_canonical st hids hrd]
    have hids' : ((exportImportRoundtrip st n0 c0).rows.map (fun s => s.id)).Nodup := by
      rw [hR]
      show ((importedRootRows _ _ _ _).map _).Nodup
      rw [importedRootRows_map_id]
      exact List.nodup_range' _ _
    have hrd' : rootOrdersDistinct (exportImportRoundtrip st n0 c0).rows := by
      rw [hR]
      exact roundtrip_rootOrdersDistinct _ _ _ _ (sortedRoots_display_nodup st hids hrd)
    rw [flat_roots_canonical _ hids' hrd']
    have hcan : canonical2 (exportImportRoundtrip st n0 c0).rows
        = canonical2 st.rows := by
      rw [hR]
      show canonical2 (importedRootRows _ _ _ _) = _
      rw [canonical2_imported st.rows _ n0 c0 (List.sorted_insertionSort dispLe _)]
      rw [canonical2]
    exact hcan

/-- Witness for C3: a one-section-one-subsection store round-trips to an
isomorphic tree. -/
theorem export_import_roundtrip_isomorphic_witness :
    depthInvariant (exportImportRoundtrip rtStore 1 0).rows ∧
    (rootsOfFlat (list_sections_flat (exportImportRoundtrip rtStore 1 0))).map treeTop
      = (rootsOfFlat (list_sections_flat rtStore)).map treeTop :=
  export_import_roundtrip_isomorphic rtStore 1 0 (by decide) (by decide) (by decide)

/-- Claim C3 counterexample: on a store that violates the sibling-order
invariant (two top-level sections with the same `display_order`), the
round trip is NOT order-preserving — the fresh `updated_at` tiebreak of
the flat listing reverses the tied roots (A, B become B, A). -/
theorem roundtrip_not_isomorphic_on_duplicate_orders :
    ¬ rootOrdersDistinct tieStore.rows ∧
    ((rootsOfFlat (list_sections_flat tieStore)).map treeTop).map (fun p => p.1)
      = [str "A", str "B"] ∧
    ((rootsOfFlat (list_sections_flat
        (exportImportRoundtrip tieStore 1 0))).map treeTop).map (fun p => p.1)
      = [str "B", str "A"] ∧
    (rootsOfFlat (list_sections_flat (exportImportRoundtrip tieStore 1 0))).map treeTop
      ≠ (rootsOfFlat (list_sections_flat tieStore)).map treeTop := by
  refine ⟨by decide, by decide, by decide, by decide⟩

end StudyApp
